import Mathlib

/-!
# Watch-lifecycle registry of the ScaledObject controller

A shallow embedding of `pkg/controller/controller.go`: the per-key registry of
cancel functions (`scaledObjectsContexts`), the two informer handlers
`syncScaledObject` and `syncDeletedScaledObject`, and the `UpdateFunc` filter
installed by `NewController`.

Contexts are identified by natural numbers: the context created by the
`i`-th call of `context.WithCancel` (counting from 0) is scope `i`, and its
cancel function is identified with the same number.  Effects the handlers
have on the outside world are recorded in the state: the list of created
scopes with their parents, the sequence of cancel-function invocations, and
the sequence of dispatched watch tasks.  Logging is a side channel and is
not modelled.
-/

namespace Controller

/-- Modelled from the spec: the declaration of `kore_v1alpha1.ScaledObject`
is not part of the sources at hand.  Only what the controller reads is kept:
namespace and name (from which the key is derived) and the resource version
(the change token compared by `UpdateFunc`). -/
structure ScaledObject where
  Namespace : String
  Name : String
  ResourceVersion : String
deriving DecidableEq, Repr

/-- A notification payload, `obj interface{}`: either a `*ScaledObject` or a
value of any other dynamic type (for instance a deletion tombstone). -/
inductive Obj where
  | scaledObject (o : ScaledObject)
  | other (tag : Nat)
deriving DecidableEq, Repr

/-- A value held by the `sync.Map` (`interface{}`): a `context.CancelFunc`,
identified by the scope it cancels, or a value of any other dynamic type. -/
inductive Value where
  | cancelFunc (scope : Nat)
  | other (tag : Nat)
deriving DecidableEq, Repr

/-- The contents of a `sync.Map` with string keys. -/
abbrev SyncMap := String → Option Value

/-- The result of `(*sync.Map).Load`: `some v` for `(v, true)`, `none` for
`(nil, false)`. -/
def SyncMap.Load (m : SyncMap) (key : String) : Option Value := m key

/-- The map after `(*sync.Map).Store`. -/
def SyncMap.Store (m : SyncMap) (key : String) (value : Value) : SyncMap :=
  fun k => if k = key then some value else m k

/-- The map after `(*sync.Map).Delete`. -/
def SyncMap.Delete (m : SyncMap) (key : String) : SyncMap :=
  fun k => if k = key then none else m k

/-- The result `(actual, loaded)` of `(*sync.Map).LoadOrStore` together with
the map afterwards: an existing value is returned and kept, otherwise the
given value is stored and returned. -/
def SyncMap.LoadOrStore (m : SyncMap) (key : String) (value : Value) :
    (Value × Bool) × SyncMap :=
  match m key with
  | some actual => ((actual, true), m)
  | none => ((value, false), SyncMap.Store m key value)

/-- The controller's mutable fields (`ctx`, `scaledObjectsContexts`) together
with the record of its outward effects. -/
structure State where
  /-- The field `c.ctx`: `none` until `Run` has set it. -/
  ctx : Option Nat
  /-- The field `c.scaledObjectsContexts`. -/
  scaledObjectsContexts : SyncMap
  /-- Every context created so far, in creation order, with its parent;
  scope `i` is entry `i`. -/
  scopes : List (Option Nat)
  /-- The cancel functions invoked so far, oldest first. -/
  cancelCalls : List Nat
  /-- The calls of `WatchScaledObjectWithContext` so far, oldest first. -/
  watches : List (Nat × ScaledObject)

/-- The state `NewController` returns: no root context yet, an empty map. -/
def NewController : State :=
  { ctx := none, scaledObjectsContexts := fun _ => none, scopes := [],
    cancelCalls := [], watches := [] }

/-- The call `context.WithCancel(parent)`: a fresh scope, child of `parent`.
The returned number names both the new context and its cancel function. -/
def WithCancel (parent : Nat) (s : State) : Nat × State :=
  (s.scopes.length, { s with scopes := s.scopes ++ [some parent] })

/-- Invoking a value loaded from the map after the checked assertion
`value.(context.CancelFunc)`: the cancel function is called when the
assertion succeeds, nothing happens otherwise. -/
def invokeIfCancelFunc (value : Value) (s : State) : State :=
  match value with
  | .cancelFunc f => { s with cancelCalls := s.cancelCalls ++ [f] }
  | .other _ => s

/-- Modelled from the spec: `scaleHandler.WatchScaledObjectWithContext` lives
in the `scalers` package, outside the sources at hand.  Dispatch is
fire-and-forget; the call is recorded with the scope it was given. -/
def WatchScaledObjectWithContext (ctx : Nat) (scaledObject : ScaledObject)
    (s : State) : State :=
  { s with watches := s.watches ++ [(ctx, scaledObject)] }

/-- The handler `syncScaledObject` (lines 61-80).  `K` stands for
`cache.MetaNamespaceKeyFunc`.  A failed unchecked type assertion and a nil
parent context are panics (`.error`). -/
def syncScaledObject (K : ScaledObject → Except String String) (obj : Obj)
    (c : State) : Except String State :=
  match obj with
  | .other _ => .error "interface conversion: interface is not *ScaledObject"
  | .scaledObject scaledObject =>
    match K scaledObject with
    | .error _ => .ok c
    | .ok key =>
      match c.ctx with
      | none => .error "cannot create context from nil parent"
      | some parent =>
        let cancel := (WithCancel parent c).1
        let c1 := (WithCancel parent c).2
        match SyncMap.LoadOrStore c1.scaledObjectsContexts key (.cancelFunc cancel) with
        | ((value, true), _) =>
          let c2 := invokeIfCancelFunc value c1
          let c3 := { c2 with scaledObjectsContexts :=
                        SyncMap.Store c2.scaledObjectsContexts key (.cancelFunc cancel) }
          .ok (WatchScaledObjectWithContext cancel scaledObject c3)
        | ((_, false), m) =>
          .ok (WatchScaledObjectWithContext cancel scaledObject
                { c1 with scaledObjectsContexts := m })

/-- The handler `syncDeletedScaledObject` (lines 82-102). -/
def syncDeletedScaledObject (K : ScaledObject → Except String String) (obj : Obj)
    (c : State) : Except String State :=
  match obj with
  | .other _ => .error "interface conversion: interface is not *ScaledObject"
  | .scaledObject scaledObject =>
    match K scaledObject with
    | .error _ => .ok c
    | .ok key =>
      match SyncMap.Load c.scaledObjectsContexts key with
      | some result =>
        let c1 := invokeIfCancelFunc result c
        .ok { c1 with scaledObjectsContexts :=
                SyncMap.Delete c1.scaledObjectsContexts key }
      | none => .ok c

/-- The `AddFunc` registered by `NewController` (line 46). -/
def AddFunc (K : ScaledObject → Except String String) (obj : Obj) (c : State) :
    Except String State :=
  syncScaledObject K obj c

/-- The `UpdateFunc` registered by `NewController` (lines 47-54). -/
def UpdateFunc (K : ScaledObject → Except String String) (oldObj newObj : Obj)
    (c : State) : Except String State :=
  match newObj with
  | .other _ => .error "interface conversion: interface is not *ScaledObject"
  | .scaledObject new =>
    match oldObj with
    | .other _ => .error "interface conversion: interface is not *ScaledObject"
    | .scaledObject old =>
      if new.ResourceVersion = old.ResourceVersion then .ok c
      else syncScaledObject K newObj c

/-- The `DeleteFunc` registered by `NewController` (line 55). -/
def DeleteFunc (K : ScaledObject → Except String String) (obj : Obj) (c : State) :
    Except String State :=
  syncDeletedScaledObject K obj c

/-- Modelled from the spec: `cache.MetaNamespaceKeyFunc` belongs to client-go,
outside the sources at hand.  The key is derived from namespace and name:
`namespace/name`, or the bare name when the namespace is empty; an object
without a name has no key. -/
def MetaNamespaceKeyFunc (o : ScaledObject) : Except String String :=
  if o.Name = "" then .error "object has no meta"
  else if o.Namespace = "" then .ok o.Name
  else .ok (o.Namespace ++ "/" ++ o.Name)

/-! ## Step semantics

For the claims about the order of effects inside one call and about
concurrent calls, each handler is also given as a sequence of atomic steps.
A `Thread` is a program point of a handler together with its live local
variables; `step` executes the statement at that point on the shared state.
The atomic steps are those of the shared objects: creating the scope
(together with the preceding local computation), each `sync.Map` operation,
each cancel-function call, and the dispatch of the watch task. -/

/-- A program point of a running handler, named after the source line it is
about to execute. -/
inductive Thread where
  /-- Entry of `syncScaledObject`: lines 62-69 are next. -/
  | upsert62 (obj : Obj)
  /-- About to execute `LoadOrStore(key, cancel)`, line 71. -/
  | upsert71 (scaledObject : ScaledObject) (key : String) (cancel : Nat)
  /-- The value was loaded: about to execute lines 73-76. -/
  | upsert73 (scaledObject : ScaledObject) (key : String) (cancel : Nat) (value : Value)
  /-- About to execute `Store(key, cancel)`, line 77. -/
  | upsert77 (scaledObject : ScaledObject) (key : String) (cancel : Nat)
  /-- About to execute `WatchScaledObjectWithContext`, line 79. -/
  | upsert79 (scaledObject : ScaledObject) (cancel : Nat)
  /-- Entry of `syncDeletedScaledObject`: lines 83-90 are next. -/
  | delete83 (obj : Obj)
  /-- About to execute `Load(key)`, line 92. -/
  | delete92 (key : String)
  /-- An entry was loaded: about to execute lines 94-97. -/
  | delete94 (key : String) (result : Value)
  /-- About to execute `Delete(key)`, line 98. -/
  | delete98 (key : String)
  /-- The handler has returned. -/
  | done
  /-- The handler has panicked. -/
  | panicked
deriving DecidableEq, Repr

/-- One atomic step of a handler on the shared state.  A handler that has
returned or panicked does not move. -/
def step (K : ScaledObject → Except String String) (t : Thread) (s : State) :
    Thread × State :=
  match t with
  | .upsert62 obj =>
    match obj with
    | .other _ => (.panicked, s)
    | .scaledObject scaledObject =>
      match K scaledObject with
      | .error _ => (.done, s)
      | .ok key =>
        match s.ctx with
        | none => (.panicked, s)
        | some parent =>
          (.upsert71 scaledObject key (WithCancel parent s).1, (WithCancel parent s).2)
  | .upsert71 scaledObject key cancel =>
    match SyncMap.LoadOrStore s.scaledObjectsContexts key (.cancelFunc cancel) with
    | ((value, true), _) => (.upsert73 scaledObject key cancel value, s)
    | ((_, false), m) => (.upsert79 scaledObject cancel, { s with scaledObjectsContexts := m })
  | .upsert73 scaledObject key cancel value =>
    (.upsert77 scaledObject key cancel, invokeIfCancelFunc value s)
  | .upsert77 scaledObject key cancel =>
    (.upsert79 scaledObject cancel,
      { s with scaledObjectsContexts :=
          SyncMap.Store s.scaledObjectsContexts key (.cancelFunc cancel) })
  | .upsert79 scaledObject cancel =>
    (.done, WatchScaledObjectWithContext cancel scaledObject s)
  | .delete83 obj =>
    match obj with
    | .other _ => (.panicked, s)
    | .scaledObject scaledObject =>
      match K scaledObject with
      | .error _ => (.done, s)
      | .ok key => (.delete92 key, s)
  | .delete92 key =>
    match SyncMap.Load s.scaledObjectsContexts key with
    | some result => (.delete94 key result, s)
    | none => (.done, s)
  | .delete94 key result => (.delete98 key, invokeIfCancelFunc result s)
  | .delete98 key =>
    (.done, { s with scaledObjectsContexts := SyncMap.Delete s.scaledObjectsContexts key })
  | .done => (.done, s)
  | .panicked => (.panicked, s)

/-- A handler running alone for `n` steps. -/
def runThread (K : ScaledObject → Except String String) :
    Nat → Thread → State → Thread × State
  | 0, t, s => (t, s)
  | n + 1, t, s => runThread K n (step K t s).1 (step K t s).2

/-- Two handlers running concurrently on one controller. -/
structure Config where
  a : Thread
  b : Thread
  s : State

/-- One scheduling decision: `true` lets handler `a` take its next step,
`false` handler `b`. -/
def Config.next (K : ScaledObject → Except String String) (c : Config)
    (pick : Bool) : Config :=
  if pick then { c with a := (step K c.a c.s).1, s := (step K c.a c.s).2 }
  else { c with b := (step K c.b c.s).1, s := (step K c.b c.s).2 }

/-- The configuration after a whole schedule, an interleaving of the steps of
the two handlers. -/
def runSched (K : ScaledObject → Except String String) (sched : List Bool)
    (c : Config) : Config :=
  sched.foldl (Config.next K) c

/-- Both handlers have returned. -/
def Config.quiescent (c : Config) : Prop := c.a = .done ∧ c.b = .done

/-- A call of one of the two handlers with a `*ScaledObject` payload. -/
inductive Call where
  | upsert (o : ScaledObject)
  | delete (o : ScaledObject)
deriving DecidableEq, Repr

/-- The effect of one call, executed to completion. -/
def Call.run (K : ScaledObject → Except String String) (call : Call) (c : State) :
    Except String State :=
  match call with
  | .upsert o => syncScaledObject K (.scaledObject o) c
  | .delete o => syncDeletedScaledObject K (.scaledObject o) c

/-- A sequence of calls executed one after the other; a panic ends the run. -/
def runCalls (K : ScaledObject → Except String String) :
    List Call → State → Except String State
  | [], c => .ok c
  | call :: rest, c =>
    match call.run K c with
    | .ok c1 => runCalls K rest c1
    | .error e => .error e

/-- How often the cancel function of scope `t` has been invoked. -/
def invocations (s : State) (t : Nat) : Nat := s.cancelCalls.count t


/-! ## Concrete states used to instantiate the theorems -/

/-- The object `ns/a` at resource version 1. -/
def exA1 : ScaledObject := { Namespace := "ns", Name := "a", ResourceVersion := "1" }

/-- The object `ns/a` at resource version 2. -/
def exA2 : ScaledObject := { Namespace := "ns", Name := "a", ResourceVersion := "2" }

/-- The object `ns/b` at resource version 1. -/
def exB1 : ScaledObject := { Namespace := "ns", Name := "b", ResourceVersion := "1" }

/-- A running controller with an empty registry: scope 0 is the parent given
to `Run`, scope 1 the root scope stored in `c.ctx`. -/
def exRunning : State :=
  { ctx := some 1, scaledObjectsContexts := fun _ => none, scopes := [none, some 0],
    cancelCalls := [], watches := [] }

/-- The running controller after one upsert of `ns/a`: the key maps to the
cancel function of scope 2. -/
def exActive : State :=
  { ctx := some 1
    scaledObjectsContexts := fun k => if k = "ns/a" then some (.cancelFunc 2) else none
    scopes := [none, some 0, some 1], cancelCalls := [], watches := [(2, exA1)] }

/-! ## Invariant of sequential runs -/

/-- The invariant of sequential runs that started with `n0` scopes, an empty
registry, no watch task and no invocation: the root is set; the watch tasks
dispatched so far carry exactly the scopes created since, each once; every
registry entry is the cancel function of a scope dispatched for that key and
not yet invoked; and every scope dispatched for a key is either the key's
entry and not invoked, or not the entry and invoked exactly once. -/
structure SeqInv (K : ScaledObject → Except String String) (root n0 : Nat)
    (s : State) : Prop where
  ctx_eq : s.ctx = some root
  len : s.scopes.length = n0 + s.watches.length
  lo : ∀ p ∈ s.watches, n0 ≤ p.1
  hi : ∀ p ∈ s.watches, p.1 < s.scopes.length
  nodup : (s.watches.map Prod.fst).Nodup
  cancel_lt : ∀ t ∈ s.cancelCalls, t < s.scopes.length
  entry : ∀ k v, s.scaledObjectsContexts k = some v →
    ∃ t o, v = .cancelFunc t ∧ (t, o) ∈ s.watches ∧ K o = .ok k ∧ invocations s t = 0
  owner : ∀ t o k, (t, o) ∈ s.watches → K o = .ok k →
    (s.scaledObjectsContexts k = some (.cancelFunc t) ∧ invocations s t = 0) ∨
    (s.scaledObjectsContexts k ≠ some (.cancelFunc t) ∧ invocations s t = 1)

/-! ## Invariants of two concurrent handlers

The predicates below describe, for two handlers `x` and `y` working on the
same key `k`, where each of them stands and what the registry and the
invocation record hold.  `tx` and `ty` are the scopes the two upserts create;
`cb` is the invocation record at the moment the first new cancel function
entered the registry; `stale` is the entry the key had before, if any. -/

/-- Whether an upsert has passed `context.WithCancel` (line 69): 0 before,
1 after. -/
def allocated : Thread → Nat
  | .upsert62 _ => 0
  | _ => 1

/-- The upsert of `o` has not executed `LoadOrStore` yet. -/
def NotLoaded (o : ScaledObject) (k : String) (t : Nat) (th : Thread) : Prop :=
  th = .upsert62 (.scaledObject o) ∨ th = .upsert71 o k t

/-- The upsert of `o` has put its cancel function `t` into the registry. -/
def Stored (o : ScaledObject) (t : Nat) (th : Thread) : Prop :=
  th = .upsert79 o t ∨ th = .done

/-- Bookkeeping of the scopes two concurrent upserts create on top of the
scopes `base`: the two scopes are the next two free ones, in the order in
which the upserts pass line 69. -/
structure Alloc (root : Nat) (base : List (Option Nat)) (tx ty : Nat)
    (x y : Thread) (s : State) : Prop where
  ctx_eq : s.ctx = some root
  scopes_eq : s.scopes = base ++ List.replicate (allocated x + allocated y) (some root)
  toks : (tx = base.length ∧ ty = base.length + 1) ∨
    (tx = base.length + 1 ∧ ty = base.length)
  first_x : allocated x = 1 → allocated y = 0 → tx = base.length
  first_y : allocated y = 1 → allocated x = 0 → ty = base.length

/-- What the other upsert has invoked once it has passed lines 73-76: the
cancel function `t` of the upsert that stored first, or the stale entry. -/
def InvokedOne (cb : List Nat) (stale : Option Nat) (t : Nat) (s : State) : Prop :=
  s.cancelCalls = cb ++ [t] ∨ ∃ u, stale = some u ∧ s.cancelCalls = cb ++ [u]

/-- Upsert `x` has stored its cancel function, which is the registry's entry;
upsert `y` has not stored yet. -/
def OneStored (k : String) (ox oy : ScaledObject) (tx ty : Nat) (cb : List Nat)
    (stale : Option Nat) (x y : Thread) (s : State) : Prop :=
  Stored ox tx x ∧ s.scaledObjectsContexts k = some (.cancelFunc tx) ∧
  (((NotLoaded oy k ty y ∨ y = .upsert73 oy k ty (.cancelFunc tx) ∨
        ∃ u, stale = some u ∧ y = .upsert73 oy k ty (.cancelFunc u)) ∧
      s.cancelCalls = cb) ∨
    (y = .upsert77 oy k ty ∧ InvokedOne cb stale tx s))

/-- Both upserts have stored, `y` last: its cancel function is the entry. -/
def BothStored (k : String) (ox oy : ScaledObject) (tx ty : Nat) (cb : List Nat)
    (stale : Option Nat) (x y : Thread) (s : State) : Prop :=
  Stored ox tx x ∧ Stored oy ty y ∧ s.scaledObjectsContexts k = some (.cancelFunc ty) ∧
  InvokedOne cb stale tx s

/-- At least one of the two upserts has stored. -/
def Later (k : String) (ox oy : ScaledObject) (tx ty : Nat) (cb : List Nat)
    (stale : Option Nat) (x y : Thread) (s : State) : Prop :=
  OneStored k ox oy tx ty cb stale x y s ∨ OneStored k oy ox ty tx cb stale y x s ∨
  BothStored k ox oy tx ty cb stale x y s ∨ BothStored k oy ox ty tx cb stale y x s

/-- Two upserts of a key without entry: neither has executed `LoadOrStore`,
the key is still absent and nothing has been invoked since the start. -/
def NoneStoredFresh (k : String) (ox oy : ScaledObject) (tx ty : Nat) (c0 : List Nat)
    (x y : Thread) (s : State) : Prop :=
  NotLoaded ox k tx x ∧ NotLoaded oy k ty y ∧ s.scaledObjectsContexts k = none ∧
  s.cancelCalls = c0

/-- The invariant of two concurrent upserts of a key that had no entry. -/
def FreshInv (root : Nat) (base : List (Option Nat)) (k : String) (ox oy : ScaledObject)
    (c0 : List Nat) (x y : Thread) (s : State) : Prop :=
  ∃ tx ty, Alloc root base tx ty x y s ∧
    (NoneStoredFresh k ox oy tx ty c0 x y s ∨ Later k ox oy tx ty c0 none x y s)

/-- An upsert that has not stored yet, on a key whose entry is still the stale
cancel function `told`; `m` tells how often it has invoked `told`. -/
def Pending (o : ScaledObject) (k : String) (t told : Nat) (th : Thread) (m : Nat) : Prop :=
  ((NotLoaded o k t th ∨ th = .upsert73 o k t (.cancelFunc told)) ∧ m = 0) ∨
  (th = .upsert77 o k t ∧ m = 1)

/-- Two upserts of a key that maps to `told`: neither has stored yet, the
entry is still `told`, and `told` has been invoked once by each upsert that
has passed lines 73-76. -/
def NoneStoredOld (k : String) (ox oy : ScaledObject) (tx ty : Nat) (c0 : List Nat)
    (told : Nat) (x y : Thread) (s : State) : Prop :=
  ∃ mx my, Pending ox k tx told x mx ∧ Pending oy k ty told y my ∧
    s.scaledObjectsContexts k = some (.cancelFunc told) ∧
    s.cancelCalls = c0 ++ List.replicate (mx + my) told

/-- The invariant of two concurrent upserts of a key that maps to `told`. -/
def OldInv (root : Nat) (base : List (Option Nat)) (k : String) (ox oy : ScaledObject)
    (c0 : List Nat) (told : Nat) (x y : Thread) (s : State) : Prop :=
  ∃ tx ty, Alloc root base tx ty x y s ∧
    (NoneStoredOld k ox oy tx ty c0 told x y s ∨
      Later k ox oy tx ty (c0 ++ [told]) (some told) x y s)

/-- The object `ns/a` at resource version 3. -/
def exA3 : ScaledObject := { Namespace := "ns", Name := "a", ResourceVersion := "3" }

/-- Two upserts of `ns/a` about to start on the controller in which `ns/a`
maps to the cancel function of scope 2. -/
def exUpserts : Config :=
  { a := .upsert62 (.scaledObject exA2), b := .upsert62 (.scaledObject exA3), s := exActive }

/-- The schedule that runs the first handler to its end, then the second. -/
def exSerial : List Bool :=
  [true, true, true, true, true, false, false, false, false, false]

/-- The schedule that lets the two handlers alternate, the first one first. -/
def exAlternate : List Bool :=
  [true, false, true, false, true, false, true, false, true, false]

/-! ## Invariant of a delete racing with an upsert

`d` is a `syncDeletedScaledObject` call and `u` a `syncScaledObject` call on
the same key `k`, which maps to `told` at the start; `tu` is the scope the
upsert creates and `c0` the invocation record at the start. -/

/-- Bookkeeping of the one scope created while a delete and an upsert run. -/
structure Alloc1 (root : Nat) (base : List (Option Nat)) (u : Thread) (s : State) :
    Prop where
  ctx_eq : s.ctx = some root
  scopes_eq : s.scopes = base ++ List.replicate (allocated u) (some root)

/-- A delete that has not executed `Delete` yet while the entry is still
`told`; `m` tells how often it has invoked `told`. -/
def DeletePending (o : ScaledObject) (k : String) (told : Nat) (d : Thread) (m : Nat) :
    Prop :=
  ((d = .delete83 (.scaledObject o) ∨ d = .delete92 k ∨
      d = .delete94 k (.cancelFunc told)) ∧ m = 0) ∨
  (d = .delete98 k ∧ m = 1)

/-- Neither has the upsert stored nor the delete deleted: the entry is `told`. -/
def RaceStart (k : String) (od ou : ScaledObject) (tu : Nat) (c0 : List Nat) (told : Nat)
    (d u : Thread) (s : State) : Prop :=
  ∃ md mu, DeletePending od k told d md ∧ Pending ou k tu told u mu ∧
    s.scaledObjectsContexts k = some (.cancelFunc told) ∧
    s.cancelCalls = c0 ++ List.replicate (md + mu) told

/-- The upsert has stored, the delete has not deleted yet: the entry is the
new cancel function `tu`. -/
def RaceStored (k : String) (od ou : ScaledObject) (tu : Nat) (c0 : List Nat) (told : Nat)
    (d u : Thread) (s : State) : Prop :=
  s.scaledObjectsContexts k = some (.cancelFunc tu) ∧ Stored ou tu u ∧
  (((d = .delete83 (.scaledObject od) ∨ d = .delete92 k ∨
        d = .delete94 k (.cancelFunc told) ∨ d = .delete94 k (.cancelFunc tu)) ∧
      s.cancelCalls = c0 ++ [told]) ∨
    (d = .delete98 k ∧
      (s.cancelCalls = c0 ++ [told, told] ∨ s.cancelCalls = c0 ++ [told, tu])))

/-- The delete has removed the entry `told` and returned, the upsert has not
stored yet: the key has no entry. -/
def RaceDeleted (k : String) (ou : ScaledObject) (tu : Nat) (c0 : List Nat) (told : Nat)
    (d u : Thread) (s : State) : Prop :=
  s.scaledObjectsContexts k = none ∧ d = .done ∧
  (((NotLoaded ou k tu u ∨ u = .upsert73 ou k tu (.cancelFunc told)) ∧
      s.cancelCalls = c0 ++ [told]) ∨
    (u = .upsert77 ou k tu ∧ s.cancelCalls = c0 ++ [told, told]))

/-- The delete has removed the entry of the new cancel function `tu` and
returned: the key has no entry although the upsert has stored. -/
def RaceRemovedNew (k : String) (ou : ScaledObject) (tu : Nat) (c0 : List Nat) (told : Nat)
    (d u : Thread) (s : State) : Prop :=
  s.scaledObjectsContexts k = none ∧ d = .done ∧ Stored ou tu u ∧
  (s.cancelCalls = c0 ++ [told, told] ∨ s.cancelCalls = c0 ++ [told, tu])

/-- The delete has returned and the upsert has stored after it: the entry is
the new cancel function `tu`. -/
def RaceKeptNew (k : String) (ou : ScaledObject) (tu : Nat) (c0 : List Nat) (told : Nat)
    (d u : Thread) (s : State) : Prop :=
  s.scaledObjectsContexts k = some (.cancelFunc tu) ∧ d = .done ∧ Stored ou tu u ∧
  (s.cancelCalls = c0 ++ [told] ∨ s.cancelCalls = c0 ++ [told, told])

/-- The invariant of a delete racing with an upsert on a key that maps to
`told`. -/
def RaceInv (root : Nat) (base : List (Option Nat)) (k : String) (od ou : ScaledObject)
    (c0 : List Nat) (told : Nat) (d u : Thread) (s : State) : Prop :=
  Alloc1 root base u s ∧
  (RaceStart k od ou base.length c0 told d u s ∨
    RaceStored k od ou base.length c0 told d u s ∨
    RaceDeleted k ou base.length c0 told d u s ∨
    RaceRemovedNew k ou base.length c0 told d u s ∨
    RaceKeptNew k ou base.length c0 told d u s)

/-- A delete and an upsert of `ns/a` about to start on the controller in
which `ns/a` maps to the cancel function of scope 2. -/
def exRace : Config :=
  { a := .delete83 (.scaledObject exA1), b := .upsert62 (.scaledObject exA2), s := exActive }

/-- The schedule in which the delete executes `Load`, then the upsert runs up
to and including its `Store`, then the delete invokes and executes `Delete`,
and the upsert dispatches its watch task. -/
def exStoreBetween : List Bool :=
  [true, true, false, false, false, false, true, true, false]

/-- An upper bound on the number of steps a handler still has to take. -/
def remaining : Thread → Nat
  | .upsert62 _ => 5
  | .upsert71 _ _ _ => 4
  | .upsert73 _ _ _ _ => 3
  | .upsert77 _ _ _ => 2
  | .upsert79 _ _ => 1
  | .delete83 _ => 4
  | .delete92 _ => 3
  | .delete94 _ _ => 2
  | .delete98 _ => 1
  | .done => 0
  | .panicked => 0

/-- A handler that has not panicked and was not given a payload of the wrong
dynamic type. -/
def Safe : Thread → Prop
  | .panicked => False
  | .upsert62 (.other _) => False
  | .delete83 (.other _) => False
  | _ => True

/-- An object without a name, for which `MetaNamespaceKeyFunc` fails. -/
def exNoName : ScaledObject := { Namespace := "ns", Name := "", ResourceVersion := "1" }

/-- The object `ns/c` at resource version 1. -/
def exC1 : ScaledObject := { Namespace := "ns", Name := "c", ResourceVersion := "1" }

/-- The object a call was given. -/
def Call.object : Call → ScaledObject
  | .upsert o => o
  | .delete o => o

/-- The state an upsert that gets as far as line 69 returns: one more scope,
its cancel function stored under the key, the loaded value (if any) invoked,
one more watch task. -/
def upserted (c : State) (o : ScaledObject) (k : String) (root : Nat) : State :=
  { ctx := c.ctx
    scaledObjectsContexts :=
      SyncMap.Store c.scaledObjectsContexts k (.cancelFunc c.scopes.length)
    scopes := c.scopes ++ [some root]
    cancelCalls :=
      match c.scaledObjectsContexts k with
      | some v => (invokeIfCancelFunc v c).cancelCalls
      | none => c.cancelCalls
    watches := c.watches ++ [(c.scopes.length, o)] }

/-- The state a delete that finds the entry `v` returns: the entry removed,
`v` invoked. -/
def deleted (c : State) (k : String) (v : Value) : State :=
  { ctx := c.ctx
    scaledObjectsContexts := SyncMap.Delete c.scaledObjectsContexts k
    scopes := c.scopes
    cancelCalls := (invokeIfCancelFunc v c).cancelCalls
    watches := c.watches }

/-- Every value in the registry is a `context.CancelFunc`. -/
def AllCancelFuncs (s : State) : Prop :=
  ∀ k v, s.scaledObjectsContexts k = some v → ∃ t, v = .cancelFunc t

/-- The running controller after upserts of `ns/a` and `ns/c`: the keys map
to the cancel functions of scopes 2 and 3. -/
def exTwoKeys : State :=
  { ctx := some 1
    scaledObjectsContexts :=
      SyncMap.Store (SyncMap.Store (fun _ => none) "ns/a" (.cancelFunc 2)) "ns/c"
        (.cancelFunc 3)
    scopes := [none, some 0, some 1, some 1], cancelCalls := []
    watches := [(2, exA1), (3, exC1)] }

/-! ## The root supervisor -/

/-- A notification the informer delivers to the handlers `NewController`
registered (lines 45-56). -/
inductive Notification where
  | add (obj : Obj)
  | update (oldObj newObj : Obj)
  | delete (obj : Obj)
deriving DecidableEq, Repr

/-- The handler call a notification results in. -/
def Notification.deliver (K : ScaledObject → Except String String) :
    Notification → State → Except String State
  | .add obj, c => AddFunc K obj c
  | .update oldObj newObj, c => UpdateFunc K oldObj newObj c
  | .delete obj, c => DeleteFunc K obj c

/-- Every payload of the notification is a `*ScaledObject`. -/
def Notification.wellTyped : Notification → Prop
  | .add (.scaledObject _) => True
  | .update (.scaledObject _) (.scaledObject _) => True
  | .delete (.scaledObject _) => True
  | _ => False

/-- Modelled from the spec: `scaledObjectsInformer.Run` belongs to client-go,
outside the sources at hand.  The event source pushes its notifications to
the handlers one at a time, in arrival order, and returns when it stops; a
panic in a handler ends the run. -/
def informerRun (K : ScaledObject → Except String String) :
    List Notification → State → Except String State
  | [], c => .ok c
  | n :: rest, c =>
    match n.deliver K c with
    | .ok c1 => informerRun K rest c1
    | .error e => .error e

/-- A call of the cancel function of scope `f`. -/
def cancelCall (f : Nat) (s : State) : State :=
  { s with cancelCalls := s.cancelCalls ++ [f] }

/-- Lines 105-107 of `Run`: the root scope is derived from the parent and
stored in `c.ctx`. -/
def runSetup (parent : Nat) (c : State) : State :=
  { (WithCancel parent c).2 with ctx := some (WithCancel parent c).1 }

/-- The method `Run` (lines 104-115): derive the root scope, store it in
`c.ctx`, run the informer, then call the root's cancel function at line 114
and once more through the `defer` of line 106.  The goroutine of lines
108-111 only logs. -/
def Run (K : ScaledObject → Except String String) (parent : Nat)
    (notifications : List Notification) (c : State) : Except String State :=
  let cancel := (WithCancel parent c).1
  match informerRun K notifications (runSetup parent c) with
  | .ok c1 => .ok (cancelCall cancel (cancelCall cancel c1))
  | .error e => .error e

/-- Whether scope `n` is cancelled, looking at most `fuel` scopes up the
tree. -/
def cancelledWithin (s : State) : Nat → Nat → Bool
  | 0, _ => false
  | fuel + 1, n =>
    decide (n ∈ s.cancelCalls) ||
      match s.scopes[n]? with
      | some (some p) => cancelledWithin s fuel p
      | _ => false

/-- Modelled from the spec: the cancellation tree is that of the `context`
package, outside the sources at hand.  Cancellation composes hierarchically:
a scope is cancelled when its own cancel function or that of one of its
ancestors has been invoked.  A parent is older than its child, so walking up
as many steps as there are scopes reaches every ancestor. -/
def cancelled (s : State) (n : Nat) : Bool :=
  cancelledWithin s s.scopes.length n

/-- The invariant of the informer phase of `Run`, started with the scopes
`base`, the watch tasks `w0` and the registry `m0`: the root is scope
`base.length`, child of `parent`; every scope created since is a child of the
root; the watch tasks dispatched since run on such scopes; and every registry
entry is an old one or the cancel function of such a scope. -/
structure RunInv (parent : Nat) (base : List (Option Nat))
    (w0 : List (Nat × ScaledObject)) (m0 : SyncMap) (s : State) : Prop where
  ctx_eq : s.ctx = some base.length
  scopes_eq : ∃ m, s.scopes = base ++ some parent :: List.replicate m (some base.length)
  watches_eq : ∃ new, s.watches = w0 ++ new ∧
    ∀ p ∈ new, base.length < p.1 ∧ p.1 < s.scopes.length
  registry : ∀ k v, s.scaledObjectsContexts k = some v →
    m0 k = some v ∨ ∃ t, v = .cancelFunc t ∧ base.length < t ∧ t < s.scopes.length

/-- A controller on which `Run` has not been called, with one background
context (scope 0) to derive the root from. -/
def exFresh : State := { NewController with scopes := [none] }

/-- The notifications of the example run: `ns/a` and `ns/c` are added, then
`ns/a` is updated to a new resource version. -/
def exNotifications : List Notification :=
  [.add (.scaledObject exA1), .add (.scaledObject exC1),
    .update (.scaledObject exA1) (.scaledObject exA2)]

/-- The state in which the informer returns after delivering
`exNotifications` on `exFresh`: `ns/a` maps to the cancel function of scope
4, `ns/c` to that of scope 3, scope 2 has been invoked. -/
def exInformed : State :=
  { ctx := some 1
    scaledObjectsContexts :=
      SyncMap.Store
        (SyncMap.Store (SyncMap.Store (fun _ => none) "ns/a" (.cancelFunc 2)) "ns/c"
          (.cancelFunc 3))
        "ns/a" (.cancelFunc 4)
    scopes := [none, some 0, some 1, some 1, some 1], cancelCalls := [2]
    watches := [(2, exA1), (3, exC1), (4, exA2)] }

/-! ## Closed forms of the handlers -/

theorem syncScaledObject_loaded (K : ScaledObject → Except String String)
    (c : State) (o : ScaledObject) (k : String) (v : Value) (root : Nat)
    (hkey : K o = .ok k) (hctx : c.ctx = some root)
    (hold : c.scaledObjectsContexts k = some v) :
    syncScaledObject K (.scaledObject o) c = .ok
      { ctx := c.ctx
        scaledObjectsContexts :=
          SyncMap.Store c.scaledObjectsContexts k (.cancelFunc c.scopes.length)
        scopes := c.scopes ++ [some root]
        cancelCalls := (invokeIfCancelFunc v c).cancelCalls
        watches := c.watches ++ [(c.scopes.length, o)] } := by
  cases v <;>
    simp [syncScaledObject, hkey, hctx, WithCancel, SyncMap.LoadOrStore, hold,
      WatchScaledObjectWithContext, invokeIfCancelFunc]

theorem syncScaledObject_stored (K : ScaledObject → Except String String)
    (c : State) (o : ScaledObject) (k : String) (root : Nat)
    (hkey : K o = .ok k) (hctx : c.ctx = some root)
    (habs : c.scaledObjectsContexts k = none) :
    syncScaledObject K (.scaledObject o) c = .ok
      { ctx := c.ctx
        scaledObjectsContexts :=
          SyncMap.Store c.scaledObjectsContexts k (.cancelFunc c.scopes.length)
        scopes := c.scopes ++ [some root]
        cancelCalls := c.cancelCalls
        watches := c.watches ++ [(c.scopes.length, o)] } := by
  simp [syncScaledObject, hkey, hctx, WithCancel, SyncMap.LoadOrStore, habs,
    WatchScaledObjectWithContext]

theorem syncDeletedScaledObject_loaded (K : ScaledObject → Except String String)
    (c : State) (o : ScaledObject) (k : String) (v : Value)
    (hkey : K o = .ok k) (hold : c.scaledObjectsContexts k = some v) :
    syncDeletedScaledObject K (.scaledObject o) c = .ok
      { ctx := c.ctx
        scaledObjectsContexts := SyncMap.Delete c.scaledObjectsContexts k
        scopes := c.scopes
        cancelCalls := (invokeIfCancelFunc v c).cancelCalls
        watches := c.watches } := by
  cases v <;>
    simp [syncDeletedScaledObject, hkey, SyncMap.Load, hold, invokeIfCancelFunc]

theorem syncDeletedScaledObject_absent (K : ScaledObject → Except String String)
    (c : State) (o : ScaledObject) (k : String)
    (hkey : K o = .ok k) (habs : c.scaledObjectsContexts k = none) :
    syncDeletedScaledObject K (.scaledObject o) c = .ok c := by
  simp [syncDeletedScaledObject, hkey, SyncMap.Load, habs]

theorem count_append_singleton (l : List Nat) (a t : Nat) :
    (l ++ [a]).count t = l.count t + if t = a then 1 else 0 := by
  rw [List.count_append]
  by_cases h : t = a
  · subst h; simp
  · have h2 : ¬ a = t := fun e => h e.symm
    simp [h, h2]

/-! ## Sequential contracts of the two handlers -/

/-- C1: upsert on an active key.  When `k` maps to the cancel function `tOld`
and the object's key is `k`, `syncScaledObject` returns; it has created one
scope (the next free one, child of the root), the registry maps `k` to the
cancel function of that scope, and during the call `tOld` was invoked exactly
once and nothing else was invoked. -/
theorem syncScaledObject_active_key (K : ScaledObject → Except String String)
    (c : State) (o : ScaledObject) (k : String) (tOld root : Nat)
    (hkey : K o = .ok k) (hctx : c.ctx = some root)
    (hold : c.scaledObjectsContexts k = some (.cancelFunc tOld)) :
    ∃ c1, syncScaledObject K (.scaledObject o) c = .ok c1 ∧
      c1.scopes = c.scopes ++ [some root] ∧
      c1.scaledObjectsContexts k = some (.cancelFunc c.scopes.length) ∧
      c1.cancelCalls = c.cancelCalls ++ [tOld] ∧
      ∀ t, invocations c1 t = invocations c t + if t = tOld then 1 else 0 := by
  refine ⟨_, syncScaledObject_loaded K c o k _ root hkey hctx hold, rfl, ?_, rfl, ?_⟩
  · simp [SyncMap.Store]
  · intro t
    simp only [invocations, invokeIfCancelFunc, count_append_singleton]

theorem syncScaledObject_active_key_witness :
    ∃ c1, syncScaledObject MetaNamespaceKeyFunc (.scaledObject exA2) exActive = .ok c1 ∧
      c1.scopes = exActive.scopes ++ [some 1] ∧
      c1.scaledObjectsContexts "ns/a" = some (.cancelFunc exActive.scopes.length) ∧
      c1.cancelCalls = exActive.cancelCalls ++ [2] ∧
      ∀ t, invocations c1 t = invocations exActive t + if t = 2 then 1 else 0 :=
  syncScaledObject_active_key MetaNamespaceKeyFunc exActive exA2 "ns/a" 2 1 rfl rfl
    (by simp [exActive])

/-- C2: upsert on an absent key.  When the registry has no entry for `k` and
the object's key is `k`, `syncScaledObject` returns; it has created one scope,
the registry maps `k` to the cancel function of that scope, and no cancel
function was invoked. -/
theorem syncScaledObject_absent_key (K : ScaledObject → Except String String)
    (c : State) (o : ScaledObject) (k : String) (root : Nat)
    (hkey : K o = .ok k) (hctx : c.ctx = some root)
    (habs : c.scaledObjectsContexts k = none) :
    ∃ c1, syncScaledObject K (.scaledObject o) c = .ok c1 ∧
      c1.scopes = c.scopes ++ [some root] ∧
      c1.scaledObjectsContexts k = some (.cancelFunc c.scopes.length) ∧
      c1.cancelCalls = c.cancelCalls ∧
      ∀ t, invocations c1 t = invocations c t := by
  refine ⟨_, syncScaledObject_stored K c o k root hkey hctx habs, rfl, ?_, rfl, ?_⟩
  · simp [SyncMap.Store]
  · intro t
    rfl

theorem syncScaledObject_absent_key_witness :
    ∃ c1, syncScaledObject MetaNamespaceKeyFunc (.scaledObject exA1) exRunning = .ok c1 ∧
      c1.scopes = exRunning.scopes ++ [some 1] ∧
      c1.scaledObjectsContexts "ns/a" = some (.cancelFunc exRunning.scopes.length) ∧
      c1.cancelCalls = exRunning.cancelCalls ∧
      ∀ t, invocations c1 t = invocations exRunning t :=
  syncScaledObject_absent_key MetaNamespaceKeyFunc exRunning exA1 "ns/a" 1 rfl rfl rfl

/-- C3: delete on an active key.  When `k` maps to the cancel function `t` and
the object's key is `k`, `syncDeletedScaledObject` returns; during the call
`t` was invoked exactly once and nothing else was invoked, and the registry
has no entry for `k` afterwards. -/
theorem syncDeletedScaledObject_active_key (K : ScaledObject → Except String String)
    (c : State) (o : ScaledObject) (k : String) (t : Nat)
    (hkey : K o = .ok k)
    (hold : c.scaledObjectsContexts k = some (.cancelFunc t)) :
    ∃ c1, syncDeletedScaledObject K (.scaledObject o) c = .ok c1 ∧
      c1.scaledObjectsContexts k = none ∧
      c1.cancelCalls = c.cancelCalls ++ [t] ∧
      ∀ u, invocations c1 u = invocations c u + if u = t then 1 else 0 := by
  refine ⟨_, syncDeletedScaledObject_loaded K c o k _ hkey hold, ?_, rfl, ?_⟩
  · simp [SyncMap.Delete]
  · intro u
    simp only [invocations, invokeIfCancelFunc, count_append_singleton]

theorem syncDeletedScaledObject_active_key_witness :
    ∃ c1, syncDeletedScaledObject MetaNamespaceKeyFunc (.scaledObject exA1) exActive = .ok c1 ∧
      c1.scaledObjectsContexts "ns/a" = none ∧
      c1.cancelCalls = exActive.cancelCalls ++ [2] ∧
      ∀ u, invocations c1 u = invocations exActive u + if u = 2 then 1 else 0 :=
  syncDeletedScaledObject_active_key MetaNamespaceKeyFunc exActive exA1 "ns/a" 2 rfl
    (by simp [exActive])

/-- C4: idempotent delete.  When the registry has no entry for `k` and the
object's key is `k`, `syncDeletedScaledObject` returns normally with the
state, registry and invocation record included, exactly as it was.  Moreover,
from any state, a delete that has just returned leaves a state on which a
second delete of the same object changes nothing. -/
theorem syncDeletedScaledObject_absent_key (K : ScaledObject → Except String String)
    (c : State) (o : ScaledObject) (k : String)
    (hkey : K o = .ok k) (habs : c.scaledObjectsContexts k = none) :
    syncDeletedScaledObject K (.scaledObject o) c = .ok c ∧
    ∀ c0 : State, ∃ c1, syncDeletedScaledObject K (.scaledObject o) c0 = .ok c1 ∧
      syncDeletedScaledObject K (.scaledObject o) c1 = .ok c1 := by
  refine ⟨syncDeletedScaledObject_absent K c o k hkey habs, ?_⟩
  intro c0
  cases h : c0.scaledObjectsContexts k with
  | none =>
    exact ⟨c0, syncDeletedScaledObject_absent K c0 o k hkey h,
      syncDeletedScaledObject_absent K c0 o k hkey h⟩
  | some v =>
    refine ⟨_, syncDeletedScaledObject_loaded K c0 o k v hkey h, ?_⟩
    apply syncDeletedScaledObject_absent K _ o k hkey
    simp [SyncMap.Delete]

theorem syncDeletedScaledObject_absent_key_witness :
    syncDeletedScaledObject MetaNamespaceKeyFunc (.scaledObject exB1) exActive = .ok exActive ∧
    ∀ c0 : State, ∃ c1,
      syncDeletedScaledObject MetaNamespaceKeyFunc (.scaledObject exB1) c0 = .ok c1 ∧
      syncDeletedScaledObject MetaNamespaceKeyFunc (.scaledObject exB1) c1 = .ok c1 :=
  syncDeletedScaledObject_absent_key MetaNamespaceKeyFunc exActive exB1 "ns/b" rfl
    (by simp [exActive])

/-- C10: update filtering.  For two `*ScaledObject` payloads, `UpdateFunc`
returns with the state untouched when the resource versions are equal, and
otherwise does exactly what `AddFunc`, that is `syncScaledObject`, does on the
new object, whatever the old object is. -/
theorem UpdateFunc_filter (K : ScaledObject → Except String String)
    (c : State) (old new : ScaledObject) :
    (new.ResourceVersion = old.ResourceVersion →
      UpdateFunc K (.scaledObject old) (.scaledObject new) c = .ok c) ∧
    (new.ResourceVersion ≠ old.ResourceVersion →
      UpdateFunc K (.scaledObject old) (.scaledObject new) c =
        AddFunc K (.scaledObject new) c) ∧
    AddFunc K (.scaledObject new) c = syncScaledObject K (.scaledObject new) c := by
  refine ⟨?_, ?_, rfl⟩
  · intro h
    simp [UpdateFunc, h]
  · intro h
    simp [UpdateFunc, AddFunc, h]

theorem UpdateFunc_filter_witness :
    UpdateFunc MetaNamespaceKeyFunc (.scaledObject exA2) (.scaledObject exA2) exActive
      = .ok exActive ∧
    UpdateFunc MetaNamespaceKeyFunc (.scaledObject exA1) (.scaledObject exA2) exActive
      = AddFunc MetaNamespaceKeyFunc (.scaledObject exA2) exActive :=
  ⟨(UpdateFunc_filter MetaNamespaceKeyFunc exActive exA2 exA2).1 rfl,
    (UpdateFunc_filter MetaNamespaceKeyFunc exActive exA1 exA2).2.1 (by decide)⟩

/-! ## The step semantics agrees with the handlers -/

/-- Running `syncScaledObject` step by step, alone, ends after at most five
steps in the state the handler returns, or in a panic when it panics. -/
theorem runThread_syncScaledObject (K : ScaledObject → Except String String)
    (obj : Obj) (c : State) :
    runThread K 5 (.upsert62 obj) c =
      match syncScaledObject K obj c with
      | .ok c1 => (.done, c1)
      | .error _ => (.panicked, c) := by
  cases obj with
  | other tag => simp [runThread, step, syncScaledObject]
  | scaledObject o =>
    cases hk : K o with
    | error e => simp [runThread, step, syncScaledObject, hk]
    | ok k =>
      cases hc : c.ctx with
      | none => simp [runThread, step, syncScaledObject, hk, hc]
      | some root =>
        cases hv : c.scaledObjectsContexts k with
        | none =>
          simp [runThread, step, syncScaledObject, hk, hc, hv, WithCancel,
            SyncMap.LoadOrStore]
        | some v =>
          simp [runThread, step, syncScaledObject, hk, hc, hv, WithCancel,
            SyncMap.LoadOrStore]

/-- Running `syncDeletedScaledObject` step by step, alone, ends after at most
four steps in the state the handler returns, or in a panic when it panics. -/
theorem runThread_syncDeletedScaledObject (K : ScaledObject → Except String String)
    (obj : Obj) (c : State) :
    runThread K 4 (.delete83 obj) c =
      match syncDeletedScaledObject K obj c with
      | .ok c1 => (.done, c1)
      | .error _ => (.panicked, c) := by
  cases obj with
  | other tag => simp [runThread, step, syncDeletedScaledObject]
  | scaledObject o =>
    cases hk : K o with
    | error e => simp [runThread, step, syncDeletedScaledObject, hk]
    | ok k =>
      cases hv : c.scaledObjectsContexts k with
      | none => simp [runThread, step, syncDeletedScaledObject, hk, hv, SyncMap.Load]
      | some v =>
        cases v <;>
          simp [runThread, step, syncDeletedScaledObject, hk, hv, SyncMap.Load,
            invokeIfCancelFunc]

/-! ## Order of effects inside one upsert -/

/-- C6, as the code has it: in `syncScaledObject` on a key that maps to the
cancel function `tOld`, the handler reaches line 73 with the registry
untouched; the next step invokes `tOld` while the registry still maps the key
to `tOld`; only the step after that (`Store`, line 77) installs the new cancel
function, and nothing further is invoked.  So the previous token is invoked
strictly before the new one is installed. -/
theorem upsert_invokes_before_store (K : ScaledObject → Except String String)
    (c : State) (o : ScaledObject) (k : String) (tOld root : Nat)
    (hkey : K o = .ok k) (hctx : c.ctx = some root)
    (hold : c.scaledObjectsContexts k = some (.cancelFunc tOld)) :
    (runThread K 2 (.upsert62 (.scaledObject o)) c).1
        = .upsert73 o k c.scopes.length (.cancelFunc tOld) ∧
      (runThread K 2 (.upsert62 (.scaledObject o)) c).2.cancelCalls = c.cancelCalls ∧
      (runThread K 2 (.upsert62 (.scaledObject o)) c).2.scaledObjectsContexts k
        = some (.cancelFunc tOld) ∧
    (runThread K 3 (.upsert62 (.scaledObject o)) c).1 = .upsert77 o k c.scopes.length ∧
      (runThread K 3 (.upsert62 (.scaledObject o)) c).2.cancelCalls
        = c.cancelCalls ++ [tOld] ∧
      (runThread K 3 (.upsert62 (.scaledObject o)) c).2.scaledObjectsContexts k
        = some (.cancelFunc tOld) ∧
    (runThread K 4 (.upsert62 (.scaledObject o)) c).1 = .upsert79 o c.scopes.length ∧
      (runThread K 4 (.upsert62 (.scaledObject o)) c).2.cancelCalls
        = c.cancelCalls ++ [tOld] ∧
      (runThread K 4 (.upsert62 (.scaledObject o)) c).2.scaledObjectsContexts k
        = some (.cancelFunc c.scopes.length) := by
  simp [runThread, step, hkey, hctx, WithCancel, SyncMap.LoadOrStore, hold,
    invokeIfCancelFunc, SyncMap.Store]

theorem upsert_invokes_before_store_witness :
    (runThread MetaNamespaceKeyFunc 2 (.upsert62 (.scaledObject exA2)) exActive).1
        = .upsert73 exA2 "ns/a" exActive.scopes.length (.cancelFunc 2) ∧
      (runThread MetaNamespaceKeyFunc 2 (.upsert62 (.scaledObject exA2)) exActive).2.cancelCalls
        = exActive.cancelCalls ∧
      (runThread MetaNamespaceKeyFunc 2
          (.upsert62 (.scaledObject exA2)) exActive).2.scaledObjectsContexts "ns/a"
        = some (.cancelFunc 2) ∧
    (runThread MetaNamespaceKeyFunc 3 (.upsert62 (.scaledObject exA2)) exActive).1
        = .upsert77 exA2 "ns/a" exActive.scopes.length ∧
      (runThread MetaNamespaceKeyFunc 3 (.upsert62 (.scaledObject exA2)) exActive).2.cancelCalls
        = exActive.cancelCalls ++ [2] ∧
      (runThread MetaNamespaceKeyFunc 3
          (.upsert62 (.scaledObject exA2)) exActive).2.scaledObjectsContexts "ns/a"
        = some (.cancelFunc 2) ∧
    (runThread MetaNamespaceKeyFunc 4 (.upsert62 (.scaledObject exA2)) exActive).1
        = .upsert79 exA2 exActive.scopes.length ∧
      (runThread MetaNamespaceKeyFunc 4 (.upsert62 (.scaledObject exA2)) exActive).2.cancelCalls
        = exActive.cancelCalls ++ [2] ∧
      (runThread MetaNamespaceKeyFunc 4
          (.upsert62 (.scaledObject exA2)) exActive).2.scaledObjectsContexts "ns/a"
        = some (.cancelFunc exActive.scopes.length) :=
  upsert_invokes_before_store MetaNamespaceKeyFunc exActive exA2 "ns/a" 2 1 rfl rfl
    (by simp [exActive])

/-- C6 fails as stated: upserting `ns/a` while it maps to the cancel function
of scope 2, the call creates scope 3; right after the step that invokes the
previous token (the third step) the invocation record holds 2, yet the
registry still maps `ns/a` to 2 and not to the new token 3. -/
theorem upsert_invokes_before_store_counterexample :
    (runThread MetaNamespaceKeyFunc 3
        (.upsert62 (.scaledObject exA2)) exActive).2.cancelCalls = [2] ∧
    (runThread MetaNamespaceKeyFunc 3
        (.upsert62 (.scaledObject exA2)) exActive).2.scaledObjectsContexts "ns/a"
      = some (.cancelFunc 2) ∧
    (runThread MetaNamespaceKeyFunc 3
        (.upsert62 (.scaledObject exA2)) exActive).2.scaledObjectsContexts "ns/a"
      ≠ some (.cancelFunc 3) ∧
    (runThread MetaNamespaceKeyFunc 5
        (.upsert62 (.scaledObject exA2)) exActive).2.scaledObjectsContexts "ns/a"
      = some (.cancelFunc 3) := by
  simp [runThread, step, MetaNamespaceKeyFunc, exA2, exActive, WithCancel,
    SyncMap.LoadOrStore, invokeIfCancelFunc, SyncMap.Store, WatchScaledObjectWithContext]

/-! ## Sequential runs: single live owner, no orphan -/

theorem snd_eq_of_nodup_fst {α : Type} (l : List (Nat × α))
    (h : (l.map Prod.fst).Nodup) (a : Nat) (b b1 : α)
    (hb : (a, b) ∈ l) (hb1 : (a, b1) ∈ l) : b = b1 := by
  induction l with
  | nil => simp at hb
  | cons p l ih =>
    simp only [List.map_cons, List.nodup_cons, List.mem_map, not_exists, not_and] at h
    simp only [List.mem_cons] at hb hb1
    rcases hb with rfl | hb
    · rcases hb1 with e | hb1
      · exact (Prod.mk.inj e).2.symm
      · exact absurd rfl (h.1 (a, b1) hb1)
    · rcases hb1 with rfl | hb1
      · exact absurd rfl (h.1 (a, b) hb)
      · exact ih h.2 hb hb1

/-- An upsert on a loaded key does what a delete followed by an upsert on the
then absent key does. -/
theorem syncScaledObject_loaded_eq (K : ScaledObject → Except String String)
    (c : State) (o : ScaledObject) (k : String) (v : Value) (root : Nat)
    (hkey : K o = .ok k) (hctx : c.ctx = some root)
    (hold : c.scaledObjectsContexts k = some v) :
    syncScaledObject K (.scaledObject o) c =
      syncScaledObject K (.scaledObject o)
        { ctx := c.ctx
          scaledObjectsContexts := SyncMap.Delete c.scaledObjectsContexts k
          scopes := c.scopes
          cancelCalls := (invokeIfCancelFunc v c).cancelCalls
          watches := c.watches } := by
  have h2 := syncScaledObject_stored K
    { ctx := c.ctx
      scaledObjectsContexts := SyncMap.Delete c.scaledObjectsContexts k
      scopes := c.scopes
      cancelCalls := (invokeIfCancelFunc v c).cancelCalls
      watches := c.watches } o k root hkey hctx (by simp [SyncMap.Delete])
  rw [syncScaledObject_loaded K c o k v root hkey hctx hold, h2]
  congr 2
  funext k1
  by_cases h : k1 = k <;> simp [SyncMap.Store, SyncMap.Delete, h]

theorem SeqInv.delete_loaded {K : ScaledObject → Except String String} {root n0 : Nat}
    {c : State} (h : SeqInv K root n0 c) (k : String) (v : Value)
    (hold : c.scaledObjectsContexts k = some v) :
    SeqInv K root n0
      { ctx := c.ctx
        scaledObjectsContexts := SyncMap.Delete c.scaledObjectsContexts k
        scopes := c.scopes
        cancelCalls := (invokeIfCancelFunc v c).cancelCalls
        watches := c.watches } := by
  obtain ⟨t0, o0, rfl, hmem0, hk0, hc0⟩ := h.entry k v hold
  have hne : ∀ t o1 k1, (t, o1) ∈ c.watches → K o1 = .ok k1 → k1 ≠ k → t ≠ t0 := by
    intro t o1 k1 hm hk1 hkk e
    subst e
    have := snd_eq_of_nodup_fst c.watches h.nodup t o1 o0 hm hmem0
    subst this
    rw [hk1] at hk0
    exact hkk (Except.ok.inj hk0)
  refine ⟨h.ctx_eq, h.len, h.lo, h.hi, h.nodup, ?_, ?_, ?_⟩
  · intro t ht
    simp only [invokeIfCancelFunc, List.mem_append, List.mem_singleton] at ht
    rcases ht with ht | rfl
    · exact h.cancel_lt t ht
    · exact h.hi _ hmem0
  · intro k1 v1 hv1
    by_cases hkk : k1 = k
    · simp [SyncMap.Delete, hkk] at hv1
    · simp only [SyncMap.Delete, hkk, if_false] at hv1
      obtain ⟨t, o1, rfl, hm, hk1, hc⟩ := h.entry k1 v1 hv1
      refine ⟨t, o1, rfl, hm, hk1, ?_⟩
      have := hne t o1 k1 hm hk1 hkk
      simp only [invocations] at hc
      simp [invocations, invokeIfCancelFunc, count_append_singleton, hc, this]
  · intro t o1 k1 hm hk1
    by_cases hkk : k1 = k
    · subst hkk
      right
      refine ⟨by simp [SyncMap.Delete], ?_⟩
      rcases h.owner t o1 k1 hm hk1 with ⟨he, hc⟩ | ⟨he, hc⟩
      · rw [hold] at he
        have : t0 = t := Value.cancelFunc.inj (Option.some.inj he)
        subst this
        simp only [invocations] at hc
        simp [invocations, invokeIfCancelFunc, count_append_singleton, hc]
      · have : t ≠ t0 := by
          intro e
          subst e
          exact he hold
        simp only [invocations] at hc
        simp [invocations, invokeIfCancelFunc, count_append_singleton, hc, this]
    · have hn := hne t o1 k1 hm hk1 hkk
      have hcnt : invocations
          { ctx := c.ctx
            scaledObjectsContexts := SyncMap.Delete c.scaledObjectsContexts k
            scopes := c.scopes
            cancelCalls := (invokeIfCancelFunc (.cancelFunc t0) c).cancelCalls
            watches := c.watches } t = invocations c t := by
        simp [invocations, invokeIfCancelFunc, count_append_singleton, hn]
      rw [hcnt]
      simpa [SyncMap.Delete, hkk] using h.owner t o1 k1 hm hk1

theorem SeqInv.upsert_stored {K : ScaledObject → Except String String} {root n0 : Nat}
    {c : State} (h : SeqInv K root n0 c) (o : ScaledObject) (k : String)
    (hkey : K o = .ok k) (habs : c.scaledObjectsContexts k = none) :
    SeqInv K root n0
      { ctx := c.ctx
        scaledObjectsContexts :=
          SyncMap.Store c.scaledObjectsContexts k (.cancelFunc c.scopes.length)
        scopes := c.scopes ++ [some root]
        cancelCalls := c.cancelCalls
        watches := c.watches ++ [(c.scopes.length, o)] } := by
  have hfresh : c.cancelCalls.count c.scopes.length = 0 := by
    rw [List.count_eq_zero]
    intro hm
    exact Nat.lt_irrefl _ (h.cancel_lt _ hm)
  refine ⟨h.ctx_eq, ?_, ?_, ?_, ?_, ?_, ?_, ?_⟩
  · simp [h.len]; omega
  · intro p hp
    simp only [List.mem_append, List.mem_singleton] at hp
    rcases hp with hp | rfl
    · exact h.lo p hp
    · simp [h.len]
  · intro p hp
    simp only [List.mem_append, List.mem_singleton] at hp
    rcases hp with hp | rfl
    · have := h.hi p hp
      simp; omega
    · simp
  · simp only [List.map_append, List.map_cons, List.map_nil]
    rw [List.nodup_append]
    refine ⟨h.nodup, List.nodup_singleton _, ?_⟩
    intro a ha hb
    simp only [List.mem_singleton] at hb
    subst hb
    simp only [List.mem_map] at ha
    obtain ⟨p, hp, e⟩ := ha
    have := h.hi p hp
    omega
  · intro t ht
    have := h.cancel_lt t ht
    simp; omega
  · intro k1 v1 hv1
    by_cases hkk : k1 = k
    · subst hkk
      simp only [SyncMap.Store, if_true] at hv1
      refine ⟨c.scopes.length, o, (Option.some.inj hv1).symm, by simp, hkey, hfresh⟩
    · simp only [SyncMap.Store, hkk, if_false] at hv1
      obtain ⟨t, o1, rfl, hm, hk1, hc⟩ := h.entry k1 v1 hv1
      exact ⟨t, o1, rfl, by simp [hm], hk1, hc⟩
  · intro t o1 k1 hm hk1
    simp only [List.mem_append, List.mem_singleton] at hm
    rcases hm with hm | e
    · have hlt := h.hi _ hm
      by_cases hkk : k1 = k
      · subst hkk
        right
        rcases h.owner t o1 k1 hm hk1 with ⟨he, _⟩ | ⟨_, hc⟩
        · rw [habs] at he
          exact absurd he (by simp)
        · refine ⟨?_, hc⟩
          simp only [SyncMap.Store, if_true, ne_eq, Option.some.injEq, Value.cancelFunc.injEq]
          simp only at hlt
          omega
      · simpa [SyncMap.Store, hkk, invocations] using h.owner t o1 k1 hm hk1
    · obtain ⟨rfl, rfl⟩ := Prod.mk.inj e
      rw [hkey] at hk1
      have := Except.ok.inj hk1
      subst this
      left
      exact ⟨by simp [SyncMap.Store], hfresh⟩

/-- Every call with a `*ScaledObject` payload returns and keeps the invariant. -/
theorem SeqInv.call {K : ScaledObject → Except String String} {root n0 : Nat}
    {c : State} (h : SeqInv K root n0 c) (call : Call) :
    ∃ c1, call.run K c = .ok c1 ∧ SeqInv K root n0 c1 := by
  cases call with
  | upsert o =>
    cases hk : K o with
    | error e => exact ⟨c, by simp [Call.run, syncScaledObject, hk], h⟩
    | ok k =>
      cases hv : c.scaledObjectsContexts k with
      | none =>
        exact ⟨_, syncScaledObject_stored K c o k root hk h.ctx_eq hv,
          h.upsert_stored o k hk hv⟩
      | some v =>
        have hd := h.delete_loaded k v hv
        refine ⟨_, ?_, hd.upsert_stored o k hk (by simp [SyncMap.Delete])⟩
        simp only [Call.run]
        rw [syncScaledObject_loaded_eq K c o k v root hk h.ctx_eq hv]
        exact syncScaledObject_stored K _ o k root hk hd.ctx_eq (by simp [SyncMap.Delete])
  | delete o =>
    cases hk : K o with
    | error e => exact ⟨c, by simp [Call.run, syncDeletedScaledObject, hk], h⟩
    | ok k =>
      cases hv : c.scaledObjectsContexts k with
      | none => exact ⟨c, syncDeletedScaledObject_absent K c o k hk hv, h⟩
      | some v =>
        exact ⟨_, syncDeletedScaledObject_loaded K c o k v hk hv, h.delete_loaded k v hv⟩

theorem SeqInv.runCalls {K : ScaledObject → Except String String} {root n0 : Nat}
    (calls : List Call) {c : State} (h : SeqInv K root n0 c) :
    ∃ c1, Controller.runCalls K calls c = .ok c1 ∧ SeqInv K root n0 c1 := by
  induction calls generalizing c with
  | nil => exact ⟨c, rfl, h⟩
  | cons call rest ih =>
    obtain ⟨c1, h1, hi1⟩ := h.call call
    obtain ⟨c2, h2, hi2⟩ := ih hi1
    exact ⟨c2, by simp [Controller.runCalls, h1, h2], hi2⟩

theorem SeqInv.initial (K : ScaledObject → Except String String) (c0 : State)
    (root : Nat) (hctx : c0.ctx = some root)
    (hreg : ∀ k, c0.scaledObjectsContexts k = none)
    (hwatch : c0.watches = []) (hcancel : c0.cancelCalls = []) :
    SeqInv K root c0.scopes.length c0 := by
  refine ⟨hctx, by simp [hwatch], ?_, ?_, by simp [hwatch], ?_, ?_, ?_⟩
  · intro p hp; simp [hwatch] at hp
  · intro p hp; simp [hwatch] at hp
  · intro t ht; simp [hcancel] at ht
  · intro k v hv; simp [hreg k] at hv
  · intro t o k hm; simp [hwatch] at hm

/-- C5: single live owner and no orphan in sequential runs.  From a running
controller with an empty registry, no watch task dispatched and nothing
invoked, every finite sequence of `syncScaledObject` and
`syncDeletedScaledObject` calls on arbitrary objects returns, and afterwards:
the scopes created during the run are exactly those handed to the watch tasks,
each to one task; every scope created for a key is either the registry's entry
for the key and has not been invoked, or is not the entry and has been invoked
exactly once; hence two scopes of one key that have not been invoked are the
same scope; and every registry entry is such a live scope of its key. -/
theorem sequential_single_owner (K : ScaledObject → Except String String)
    (c0 : State) (root : Nat) (calls : List Call)
    (hctx : c0.ctx = some root)
    (hreg : ∀ k, c0.scaledObjectsContexts k = none)
    (hwatch : c0.watches = []) (hcancel : c0.cancelCalls = []) :
    ∃ c, runCalls K calls c0 = .ok c ∧
      c.scopes.length = c0.scopes.length + c.watches.length ∧
      (∀ p ∈ c.watches, c0.scopes.length ≤ p.1 ∧ p.1 < c.scopes.length) ∧
      (c.watches.map Prod.fst).Nodup ∧
      (∀ t o k, (t, o) ∈ c.watches → K o = .ok k →
        (c.scaledObjectsContexts k = some (.cancelFunc t) ∧ invocations c t = 0) ∨
        (c.scaledObjectsContexts k ≠ some (.cancelFunc t) ∧ invocations c t = 1)) ∧
      (∀ k t o u p, (t, o) ∈ c.watches → K o = .ok k → (u, p) ∈ c.watches → K p = .ok k →
        invocations c t = 0 → invocations c u = 0 → t = u) ∧
      (∀ k v, c.scaledObjectsContexts k = some v →
        ∃ t o, v = .cancelFunc t ∧ (t, o) ∈ c.watches ∧ K o = .ok k ∧
          invocations c t = 0) := by
  obtain ⟨c, hrun, hinv⟩ :=
    (SeqInv.initial K c0 root hctx hreg hwatch hcancel).runCalls calls
  refine ⟨c, hrun, hinv.len, fun p hp => ⟨hinv.lo p hp, hinv.hi p hp⟩, hinv.nodup,
    hinv.owner, ?_, hinv.entry⟩
  intro k t o u p hm hk hm1 hk1 h0 h1
  rcases hinv.owner t o k hm hk with ⟨he, _⟩ | ⟨_, hc⟩
  · rcases hinv.owner u p k hm1 hk1 with ⟨he1, _⟩ | ⟨_, hc1⟩
    · rw [he] at he1
      exact Value.cancelFunc.inj (Option.some.inj he1)
    · omega
  · omega

theorem sequential_single_owner_witness :
    ∃ c, runCalls MetaNamespaceKeyFunc
        [.upsert exA1, .upsert exB1, .upsert exA2, .delete exB1, .delete exB1] exRunning
        = .ok c ∧
      c.scopes.length = exRunning.scopes.length + c.watches.length ∧
      (∀ p ∈ c.watches, exRunning.scopes.length ≤ p.1 ∧ p.1 < c.scopes.length) ∧
      (c.watches.map Prod.fst).Nodup ∧
      (∀ t o k, (t, o) ∈ c.watches → MetaNamespaceKeyFunc o = .ok k →
        (c.scaledObjectsContexts k = some (.cancelFunc t) ∧ invocations c t = 0) ∨
        (c.scaledObjectsContexts k ≠ some (.cancelFunc t) ∧ invocations c t = 1)) ∧
      (∀ k t o u p, (t, o) ∈ c.watches → MetaNamespaceKeyFunc o = .ok k →
        (u, p) ∈ c.watches → MetaNamespaceKeyFunc p = .ok k →
        invocations c t = 0 → invocations c u = 0 → t = u) ∧
      (∀ k v, c.scaledObjectsContexts k = some v →
        ∃ t o, v = .cancelFunc t ∧ (t, o) ∈ c.watches ∧ MetaNamespaceKeyFunc o = .ok k ∧
          invocations c t = 0) :=
  sequential_single_owner MetaNamespaceKeyFunc exRunning 1
    [.upsert exA1, .upsert exB1, .upsert exA2, .delete exB1, .delete exB1] rfl
    (fun _ => rfl) rfl rfl

/-- The run used above, evaluated: `ns/a` ends on the scope of its second
upsert, the scope of its first upsert and that of `ns/b` have been invoked
once each. -/
theorem sequential_run_example :
    ∃ c, runCalls MetaNamespaceKeyFunc
        [.upsert exA1, .upsert exB1, .upsert exA2, .delete exB1, .delete exB1] exRunning
        = .ok c ∧
      c.scaledObjectsContexts "ns/a" = some (.cancelFunc 4) ∧
      c.scaledObjectsContexts "ns/b" = none ∧
      c.cancelCalls = [2, 3] ∧
      c.watches = [(2, exA1), (3, exB1), (4, exA2)] := by
  simp [runCalls, Call.run, syncScaledObject, syncDeletedScaledObject,
    MetaNamespaceKeyFunc, exA1, exA2, exB1, exRunning, WithCancel, SyncMap.LoadOrStore,
    SyncMap.Store, SyncMap.Load, SyncMap.Delete, invokeIfCancelFunc,
    WatchScaledObjectWithContext]

/-! ## Single steps of an upsert -/

theorem step_upsert62 (K : ScaledObject → Except String String) (o : ScaledObject)
    (k : String) (root : Nat) (s : State) (hk : K o = .ok k) (hc : s.ctx = some root) :
    step K (.upsert62 (.scaledObject o)) s =
      (.upsert71 o k s.scopes.length, { s with scopes := s.scopes ++ [some root] }) := by
  simp [step, hk, hc, WithCancel]

theorem step_upsert71_loaded (K : ScaledObject → Except String String) (o : ScaledObject)
    (k : String) (t : Nat) (v : Value) (s : State)
    (hv : s.scaledObjectsContexts k = some v) :
    step K (.upsert71 o k t) s = (.upsert73 o k t v, s) := by
  simp [step, SyncMap.LoadOrStore, hv]

theorem step_upsert71_stored (K : ScaledObject → Except String String) (o : ScaledObject)
    (k : String) (t : Nat) (s : State) (hv : s.scaledObjectsContexts k = none) :
    step K (.upsert71 o k t) s =
      (.upsert79 o t,
        { s with
          scaledObjectsContexts := SyncMap.Store s.scaledObjectsContexts k (.cancelFunc t) }) := by
  simp [step, SyncMap.LoadOrStore, hv]

theorem step_upsert73 (K : ScaledObject → Except String String) (o : ScaledObject)
    (k : String) (t u : Nat) (s : State) :
    step K (.upsert73 o k t (.cancelFunc u)) s =
      (.upsert77 o k t, { s with cancelCalls := s.cancelCalls ++ [u] }) := rfl

theorem step_upsert77 (K : ScaledObject → Except String String) (o : ScaledObject)
    (k : String) (t : Nat) (s : State) :
    step K (.upsert77 o k t) s =
      (.upsert79 o t,
        { s with
          scaledObjectsContexts := SyncMap.Store s.scaledObjectsContexts k (.cancelFunc t) }) :=
  rfl

theorem step_upsert79 (K : ScaledObject → Except String String) (o : ScaledObject)
    (t : Nat) (s : State) :
    step K (.upsert79 o t) s = (.done, { s with watches := s.watches ++ [(t, o)] }) := rfl

theorem step_done (K : ScaledObject → Except String String) (s : State) :
    step K .done s = (.done, s) := rfl

/-! ## Two concurrent upserts: preservation of the invariants -/

theorem Alloc.swap {root : Nat} {base : List (Option Nat)} {tx ty : Nat}
    {x y : Thread} {s : State} (h : Alloc root base tx ty x y s) :
    Alloc root base ty tx y x s :=
  ⟨h.ctx_eq, by rw [Nat.add_comm]; exact h.scopes_eq, h.toks.symm.imp And.symm And.symm,
    h.first_y, h.first_x⟩

theorem Later.mirror {k : String} {ox oy : ScaledObject} {tx ty : Nat} {cb : List Nat}
    {stale : Option Nat} {x y : Thread} {s : State}
    (h : Later k ox oy tx ty cb stale x y s) : Later k oy ox ty tx cb stale y x s := by
  rcases h with h | h | h | h
  · exact Or.inr (Or.inl h)
  · exact Or.inl h
  · exact Or.inr (Or.inr (Or.inr h))
  · exact Or.inr (Or.inr (Or.inl h))

/-- A step of a handler that is past line 69 creates no scope and leaves the
root alone. -/
theorem Alloc.step_allocated {root : Nat}
    {base : List (Option Nat)} {tx ty : Nat} {x y : Thread} {s : State}
    (h : Alloc root base tx ty x y s) (x1 : Thread) (s1 : State)
    (hx : allocated x = 1) (hx1 : allocated x1 = 1)
    (hctx : s1.ctx = s.ctx) (hsc : s1.scopes = s.scopes) :
    Alloc root base tx ty x1 y s1 :=
  ⟨hctx ▸ h.ctx_eq, by rw [hsc, hx1, ← hx]; exact h.scopes_eq, h.toks,
    fun _ hy => h.first_x hx hy, fun hy h0 => by rw [hx1] at h0; exact absurd h0 (by decide)⟩

/-- The step that takes an upsert through line 69 when the other handler is
already past it: the new scope is the second of the two. -/
theorem Alloc.step_second (K : ScaledObject → Except String String) {root : Nat}
    {base : List (Option Nat)} {tx ty : Nat} {y : Thread} {s : State} (o : ScaledObject)
    (k : String) (hk : K o = .ok k)
    (h : Alloc root base tx ty (.upsert62 (.scaledObject o)) y s) (hy : allocated y = 1) :
    step K (.upsert62 (.scaledObject o)) s =
        (.upsert71 o k tx, { s with scopes := s.scopes ++ [some root] }) ∧
      Alloc root base tx ty (.upsert71 o k tx) y { s with scopes := s.scopes ++ [some root] } := by
  have hty : ty = base.length := h.first_y hy rfl
  have htx : tx = base.length + 1 := by
    rcases h.toks with ⟨_, h2⟩ | ⟨h1, _⟩
    · omega
    · exact h1
  have hlen : s.scopes.length = tx := by
    rw [h.scopes_eq, hy]
    simp [allocated, htx]
  refine ⟨by rw [step_upsert62 K o k root s hk h.ctx_eq, hlen], h.ctx_eq, ?_, h.toks, ?_, ?_⟩
  · show s.scopes ++ [some root] = base ++ List.replicate (1 + allocated y) (some root)
    rw [h.scopes_eq, hy, List.append_assoc]
    rfl
  · intro _ h0
    rw [hy] at h0
    exact absurd h0 (by decide)
  · intro _ h0
    simp [allocated] at h0

theorem Later.step_x (K : ScaledObject → Except String String) {root : Nat}
    {base : List (Option Nat)} {k : String} {ox oy : ScaledObject} {tx ty : Nat}
    {cb : List Nat} {stale : Option Nat} {x y : Thread} {s : State}
    (hkx : K ox = .ok k)
    (hA : Alloc root base tx ty x y s) (hL : Later k ox oy tx ty cb stale x y s) :
    Alloc root base tx ty (step K x s).1 y (step K x s).2 ∧
      Later k ox oy tx ty cb stale (step K x s).1 y (step K x s).2 := by
  rcases hL with ⟨hx, hreg, hy⟩ | ⟨hy, hreg, hx⟩ | ⟨hx, hy, hreg, hlog⟩ | ⟨hy, hx, hreg, hlog⟩
  · -- `x` has stored, `y` is pending
    rcases hx with rfl | rfl
    · exact ⟨hA.step_allocated _ _ rfl rfl rfl rfl,
        Or.inl ⟨Or.inr rfl, hreg, hy⟩⟩
    · exact ⟨hA, Or.inl ⟨Or.inr rfl, hreg, hy⟩⟩
  · -- `y` has stored, `x` is pending
    have hay : allocated y = 1 := by rcases hy with rfl | rfl <;> rfl
    rcases hx with ⟨hx, hlog⟩ | ⟨rfl, hlog⟩
    · rcases hx with (rfl | rfl) | rfl | ⟨u, hu, rfl⟩
      · obtain ⟨hs, hA1⟩ := hA.step_second K ox k hkx hay
        rw [hs]
        exact ⟨hA1, Or.inr (Or.inl ⟨hy, hreg, Or.inl ⟨Or.inl (Or.inr rfl), hlog⟩⟩)⟩
      · rw [step_upsert71_loaded K ox k tx _ s hreg]
        exact ⟨hA.step_allocated _ _ rfl rfl rfl rfl, Or.inr (Or.inl ⟨hy, hreg, Or.inl ⟨Or.inr (Or.inl rfl), hlog⟩⟩)⟩
      · rw [step_upsert73]
        exact ⟨hA.step_allocated _ _ rfl rfl rfl rfl,
          Or.inr (Or.inl ⟨hy, hreg, Or.inr ⟨rfl, Or.inl (by simp [hlog])⟩⟩)⟩
      · rw [step_upsert73]
        exact ⟨hA.step_allocated _ _ rfl rfl rfl rfl,
          Or.inr (Or.inl ⟨hy, hreg, Or.inr ⟨rfl, Or.inr ⟨u, hu, by simp [hlog]⟩⟩⟩)⟩
    · rw [step_upsert77]
      exact ⟨hA.step_allocated _ _ rfl rfl rfl rfl,
        Or.inr (Or.inr (Or.inr ⟨hy, Or.inl rfl, by simp [SyncMap.Store], hlog⟩))⟩
  · -- both have stored, `y` last
    rcases hx with rfl | rfl
    · exact ⟨hA.step_allocated _ _ rfl rfl rfl rfl,
        Or.inr (Or.inr (Or.inl ⟨Or.inr rfl, hy, hreg, hlog⟩))⟩
    · exact ⟨hA, Or.inr (Or.inr (Or.inl ⟨Or.inr rfl, hy, hreg, hlog⟩))⟩
  · -- both have stored, `x` last
    rcases hx with rfl | rfl
    · exact ⟨hA.step_allocated _ _ rfl rfl rfl rfl,
        Or.inr (Or.inr (Or.inr ⟨hy, Or.inr rfl, hreg, hlog⟩))⟩
    · exact ⟨hA, Or.inr (Or.inr (Or.inr ⟨hy, Or.inr rfl, hreg, hlog⟩))⟩

theorem Later.step_y (K : ScaledObject → Except String String) {root : Nat}
    {base : List (Option Nat)} {k : String} {ox oy : ScaledObject} {tx ty : Nat}
    {cb : List Nat} {stale : Option Nat} {x y : Thread} {s : State}
    (hky : K oy = .ok k)
    (hA : Alloc root base tx ty x y s) (hL : Later k ox oy tx ty cb stale x y s) :
    Alloc root base tx ty x (step K y s).1 (step K y s).2 ∧
      Later k ox oy tx ty cb stale x (step K y s).1 (step K y s).2 := by
  obtain ⟨h1, h2⟩ := Later.step_x K hky hA.swap hL.mirror
  exact ⟨h1.swap, h2.mirror⟩

/-- The step that takes an upsert through line 69 while the other upsert has
not passed it: the new scope is the first of the two. -/
theorem Alloc.step_first (K : ScaledObject → Except String String) {root : Nat}
    {base : List (Option Nat)} {tx ty : Nat} {y : Thread} {s : State} (o : ScaledObject)
    (k : String) (hk : K o = .ok k)
    (h : Alloc root base tx ty (.upsert62 (.scaledObject o)) y s) (hy : allocated y = 0) :
    step K (.upsert62 (.scaledObject o)) s =
        (.upsert71 o k base.length, { s with scopes := s.scopes ++ [some root] }) ∧
      Alloc root base base.length (base.length + 1) (.upsert71 o k base.length) y
        { s with scopes := s.scopes ++ [some root] } := by
  have hlen : s.scopes.length = base.length := by
    rw [h.scopes_eq, hy]
    simp [allocated]
  refine ⟨by rw [step_upsert62 K o k root s hk h.ctx_eq, hlen], h.ctx_eq, ?_,
    Or.inl ⟨rfl, rfl⟩, fun _ _ => rfl, ?_⟩
  · show s.scopes ++ [some root] = base ++ List.replicate (1 + allocated y) (some root)
    rw [h.scopes_eq, hy, List.append_assoc]
    rfl
  · intro h1 _
    rw [hy] at h1
    exact absurd h1 (by decide)

theorem FreshInv.flip {root : Nat} {base : List (Option Nat)} {k : String}
    {ox oy : ScaledObject} {c0 : List Nat} {x y : Thread} {s : State}
    (h : FreshInv root base k ox oy c0 x y s) : FreshInv root base k oy ox c0 y x s := by
  obtain ⟨tx, ty, hA, hS⟩ := h
  refine ⟨ty, tx, hA.swap, ?_⟩
  rcases hS with ⟨h1, h2, h3, h4⟩ | hL
  · exact Or.inl ⟨h2, h1, h3, h4⟩
  · exact Or.inr hL.mirror

theorem FreshInv.step_first_handler (K : ScaledObject → Except String String) {root : Nat}
    {base : List (Option Nat)} {k : String} {ox oy : ScaledObject} {c0 : List Nat}
    {x y : Thread} {s : State} (hkx : K ox = .ok k)
    (h : FreshInv root base k ox oy c0 x y s) :
    FreshInv root base k ox oy c0 (step K x s).1 y (step K x s).2 := by
  obtain ⟨tx, ty, hA, hS⟩ := h
  rcases hS with ⟨hx, hy, hreg, hlog⟩ | hL
  · rcases hx with rfl | rfl
    · by_cases hay : allocated y = 1
      · obtain ⟨hs, hA1⟩ := hA.step_second K ox k hkx hay
        rw [hs]
        exact ⟨tx, ty, hA1, Or.inl ⟨Or.inr rfl, hy, hreg, hlog⟩⟩
      · have hy0 : y = .upsert62 (.scaledObject oy) := by
          rcases hy with rfl | rfl
          · rfl
          · exact absurd rfl hay
        subst hy0
        obtain ⟨hs, hA1⟩ := hA.step_first K ox k hkx rfl
        rw [hs]
        exact ⟨_, _, hA1, Or.inl ⟨Or.inr rfl, Or.inl rfl, hreg, hlog⟩⟩
    · rw [step_upsert71_stored K ox k tx s hreg]
      exact ⟨tx, ty, hA.step_allocated _ _ rfl rfl rfl rfl,
        Or.inr (Or.inl ⟨Or.inl rfl, by simp [SyncMap.Store], Or.inl ⟨Or.inl hy, hlog⟩⟩)⟩
  · obtain ⟨hA1, hL1⟩ := Later.step_x K hkx hA hL
    exact ⟨tx, ty, hA1, Or.inr hL1⟩

theorem FreshInv.next (K : ScaledObject → Except String String) {root : Nat}
    {base : List (Option Nat)} {k : String} {oa ob : ScaledObject} {c0 : List Nat}
    (hka : K oa = .ok k) (hkb : K ob = .ok k) (c : Config) (pick : Bool)
    (h : FreshInv root base k oa ob c0 c.a c.b c.s) :
    FreshInv root base k oa ob c0 (c.next K pick).a (c.next K pick).b (c.next K pick).s := by
  cases pick
  · simpa [Config.next] using (FreshInv.step_first_handler K hkb h.flip).flip
  · simpa [Config.next] using FreshInv.step_first_handler K hka h

theorem FreshInv.schedule (K : ScaledObject → Except String String) {root : Nat}
    {base : List (Option Nat)} {k : String} {oa ob : ScaledObject} {c0 : List Nat}
    (hka : K oa = .ok k) (hkb : K ob = .ok k) (sched : List Bool) (c : Config)
    (h : FreshInv root base k oa ob c0 c.a c.b c.s) :
    FreshInv root base k oa ob c0 (Controller.runSched K sched c).a
      (Controller.runSched K sched c).b (Controller.runSched K sched c).s := by
  induction sched generalizing c with
  | nil => exact h
  | cons pick rest ih => exact ih (c.next K pick) (FreshInv.next K hka hkb c pick h)

/-- What `Later` says once both upserts have returned: the entry is the
cancel function of the upsert that stored last, and since the first store
exactly one invocation has happened, of the other new cancel function or of
the stale entry. -/
theorem Later.quiescent {root : Nat} {base : List (Option Nat)} {k : String}
    {ox oy : ScaledObject} {tx ty : Nat} {cb : List Nat} {stale : Option Nat} {s : State}
    (hA : Alloc root base tx ty .done .done s)
    (hL : Later k ox oy tx ty cb stale .done .done s) :
    s.scopes = base ++ [some root, some root] ∧
    ∃ w l, ((w = base.length ∧ l = base.length + 1) ∨
        (w = base.length + 1 ∧ l = base.length)) ∧
      s.scaledObjectsContexts k = some (.cancelFunc w) ∧ InvokedOne cb stale l s := by
  refine ⟨hA.scopes_eq, ?_⟩
  rcases hL with ⟨_, _, h⟩ | ⟨_, _, h⟩ | ⟨_, _, hreg, hlog⟩ | ⟨_, _, hreg, hlog⟩
  · rcases h with ⟨h | h | ⟨_, _, h⟩, _⟩ | ⟨h, _⟩
    · rcases h with h | h <;> cases h
    all_goals cases h
  · rcases h with ⟨h | h | ⟨_, _, h⟩, _⟩ | ⟨h, _⟩
    · rcases h with h | h <;> cases h
    all_goals cases h
  · exact ⟨ty, tx, hA.toks.symm.imp And.symm And.symm, hreg, hlog⟩
  · exact ⟨tx, ty, hA.toks, hreg, hlog⟩

theorem count_eq_zero_of_lt (l : List Nat) (n t : Nat) (h : ∀ u ∈ l, u < n) (ht : n ≤ t) :
    l.count t = 0 := by
  rw [List.count_eq_zero]
  intro hm
  exact Nat.lt_irrefl _ (Nat.lt_of_lt_of_le (h t hm) ht)

/-! ## Two concurrent upserts of a fresh key -/

/-- C7: two concurrent upserts of a key without entry.  Whatever the
interleaving of their atomic steps, once both calls have returned the two
calls have created the next two scopes, the registry maps the key to the
cancel function of one of them, `w`, and the only invocation that happened is
one invocation of the other, `l`; when no scope that did not exist yet had
been invoked before, `w` has never been invoked and `l` exactly once. -/
theorem concurrent_upserts_fresh_key (K : ScaledObject → Except String String)
    (s0 : State) (oa ob : ScaledObject) (k : String) (root : Nat) (sched : List Bool)
    (hka : K oa = .ok k) (hkb : K ob = .ok k) (hctx : s0.ctx = some root)
    (habs : s0.scaledObjectsContexts k = none)
    (hfresh : ∀ t ∈ s0.cancelCalls, t < s0.scopes.length)
    (hq : (runSched K sched
      ⟨.upsert62 (.scaledObject oa), .upsert62 (.scaledObject ob), s0⟩).quiescent) :
    (runSched K sched ⟨.upsert62 (.scaledObject oa), .upsert62 (.scaledObject ob), s0⟩).s.scopes
        = s0.scopes ++ [some root, some root] ∧
    ∃ w l, ((w = s0.scopes.length ∧ l = s0.scopes.length + 1) ∨
        (w = s0.scopes.length + 1 ∧ l = s0.scopes.length)) ∧
      (runSched K sched ⟨.upsert62 (.scaledObject oa), .upsert62 (.scaledObject ob),
        s0⟩).s.scaledObjectsContexts k = some (.cancelFunc w) ∧
      (runSched K sched ⟨.upsert62 (.scaledObject oa), .upsert62 (.scaledObject ob),
        s0⟩).s.cancelCalls = s0.cancelCalls ++ [l] ∧
      invocations (runSched K sched ⟨.upsert62 (.scaledObject oa),
        .upsert62 (.scaledObject ob), s0⟩).s w = 0 ∧
      invocations (runSched K sched ⟨.upsert62 (.scaledObject oa),
        .upsert62 (.scaledObject ob), s0⟩).s l = 1 := by
  have h0 : FreshInv root s0.scopes k oa ob s0.cancelCalls
      (.upsert62 (.scaledObject oa)) (.upsert62 (.scaledObject ob)) s0 :=
    ⟨s0.scopes.length, s0.scopes.length + 1,
      ⟨hctx, by simp [allocated], Or.inl ⟨rfl, rfl⟩, fun _ _ => rfl,
        fun h => by simp [allocated] at h⟩,
      Or.inl ⟨Or.inl rfl, Or.inl rfl, habs, rfl⟩⟩
  have h := FreshInv.schedule K hka hkb sched
    ⟨.upsert62 (.scaledObject oa), .upsert62 (.scaledObject ob), s0⟩ h0
  obtain ⟨ha, hb⟩ := hq
  rw [ha, hb] at h
  obtain ⟨tx, ty, hA, hS⟩ := h
  rcases hS with ⟨hx, _⟩ | hL
  · rcases hx with hx | hx <;> cases hx
  · obtain ⟨hsc, w, l, htok, hreg, hlog⟩ := Later.quiescent hA hL
    have hlog1 : (runSched K sched ⟨.upsert62 (.scaledObject oa),
        .upsert62 (.scaledObject ob), s0⟩).s.cancelCalls = s0.cancelCalls ++ [l] := by
      rcases hlog with h | ⟨u, hu, _⟩
      · exact h
      · cases hu
    refine ⟨hsc, w, l, htok, hreg, hlog1, ?_, ?_⟩
    · rw [invocations, hlog1, count_append_singleton,
        count_eq_zero_of_lt _ _ w hfresh (by omega)]
      have : w ≠ l := by omega
      simp [this]
    · rw [invocations, hlog1, count_append_singleton,
        count_eq_zero_of_lt _ _ l hfresh (by omega)]
      simp

theorem concurrent_upserts_fresh_key_witness :
    (runSched MetaNamespaceKeyFunc [true, false, false, true, false, true, true, true]
      ⟨.upsert62 (.scaledObject exA1), .upsert62 (.scaledObject exA2), exRunning⟩).s.scopes
        = exRunning.scopes ++ [some 1, some 1] ∧
    ∃ w l, ((w = exRunning.scopes.length ∧ l = exRunning.scopes.length + 1) ∨
        (w = exRunning.scopes.length + 1 ∧ l = exRunning.scopes.length)) ∧
      (runSched MetaNamespaceKeyFunc [true, false, false, true, false, true, true, true]
        ⟨.upsert62 (.scaledObject exA1), .upsert62 (.scaledObject exA2),
          exRunning⟩).s.scaledObjectsContexts "ns/a" = some (.cancelFunc w) ∧
      (runSched MetaNamespaceKeyFunc [true, false, false, true, false, true, true, true]
        ⟨.upsert62 (.scaledObject exA1), .upsert62 (.scaledObject exA2),
          exRunning⟩).s.cancelCalls = exRunning.cancelCalls ++ [l] ∧
      invocations (runSched MetaNamespaceKeyFunc
        [true, false, false, true, false, true, true, true]
        ⟨.upsert62 (.scaledObject exA1), .upsert62 (.scaledObject exA2), exRunning⟩).s w = 0 ∧
      invocations (runSched MetaNamespaceKeyFunc
        [true, false, false, true, false, true, true, true]
        ⟨.upsert62 (.scaledObject exA1), .upsert62 (.scaledObject exA2), exRunning⟩).s l = 1 :=
  concurrent_upserts_fresh_key MetaNamespaceKeyFunc exRunning exA1 exA2 "ns/a" 1
    [true, false, false, true, false, true, true, true] rfl rfl rfl rfl
    (by simp [exRunning])
    (by simp [Config.quiescent, runSched, Config.next, step, MetaNamespaceKeyFunc, exA1, exA2,
      exRunning, WithCancel, SyncMap.LoadOrStore, SyncMap.Store, invokeIfCancelFunc,
      WatchScaledObjectWithContext])

/-! ## Two concurrent upserts of an active key -/

theorem OldInv.exchange {root : Nat} {base : List (Option Nat)} {k : String}
    {ox oy : ScaledObject} {c0 : List Nat} {told : Nat} {x y : Thread} {s : State}
    (h : OldInv root base k ox oy c0 told x y s) :
    OldInv root base k oy ox c0 told y x s := by
  obtain ⟨tx, ty, hA, hS⟩ := h
  refine ⟨ty, tx, hA.swap, ?_⟩
  rcases hS with ⟨mx, my, h1, h2, h3, h4⟩ | hL
  · exact Or.inl ⟨my, mx, h2, h1, h3, by rw [Nat.add_comm]; exact h4⟩
  · exact Or.inr hL.mirror

theorem OldInv.step_one (K : ScaledObject → Except String String) {root : Nat}
    {base : List (Option Nat)} {k : String} {ox oy : ScaledObject} {c0 : List Nat}
    {told : Nat} {x y : Thread} {s : State} (hkx : K ox = .ok k)
    (h : OldInv root base k ox oy c0 told x y s) :
    OldInv root base k ox oy c0 told (step K x s).1 y (step K x s).2 := by
  obtain ⟨tx, ty, hA, hS⟩ := h
  rcases hS with ⟨mx, my, hx, hy, hreg, hlog⟩ | hL
  · rcases hx with ⟨(rfl | rfl) | rfl, rfl⟩ | ⟨rfl, rfl⟩
    · -- line 69
      by_cases hay : allocated y = 1
      · obtain ⟨hs, hA1⟩ := hA.step_second K ox k hkx hay
        rw [hs]
        exact ⟨tx, ty, hA1, Or.inl ⟨0, my, Or.inl ⟨Or.inl (Or.inr rfl), rfl⟩, hy, hreg, hlog⟩⟩
      · have hy0 : y = .upsert62 (.scaledObject oy) ∧ my = 0 := by
          rcases hy with ⟨(rfl | rfl) | rfl, rfl⟩ | ⟨rfl, rfl⟩
          · exact ⟨rfl, rfl⟩
          all_goals exact absurd rfl hay
        obtain ⟨rfl, rfl⟩ := hy0
        obtain ⟨hs, hA1⟩ := hA.step_first K ox k hkx rfl
        rw [hs]
        exact ⟨_, _, hA1, Or.inl ⟨0, 0, Or.inl ⟨Or.inl (Or.inr rfl), rfl⟩,
          Or.inl ⟨Or.inl (Or.inl rfl), rfl⟩, hreg, hlog⟩⟩
    · -- `LoadOrStore` loads the stale entry
      rw [step_upsert71_loaded K ox k tx _ s hreg]
      exact ⟨tx, ty, hA.step_allocated _ _ rfl rfl rfl rfl,
        Or.inl ⟨0, my, Or.inl ⟨Or.inr rfl, rfl⟩, hy, hreg, hlog⟩⟩
    · -- the stale entry is invoked
      rw [step_upsert73]
      refine ⟨tx, ty, hA.step_allocated _ _ rfl rfl rfl rfl,
        Or.inl ⟨1, my, Or.inr ⟨rfl, rfl⟩, hy, hreg, ?_⟩⟩
      show s.cancelCalls ++ [told] = c0 ++ List.replicate (1 + my) told
      rw [hlog, Nat.zero_add, Nat.add_comm, List.replicate_succ', List.append_assoc]
    · -- `Store` replaces the stale entry
      rw [step_upsert77]
      refine ⟨tx, ty, hA.step_allocated _ _ rfl rfl rfl rfl,
        Or.inr (Or.inl ⟨Or.inl rfl, by simp [SyncMap.Store], ?_⟩)⟩
      rcases hy with ⟨hy, rfl⟩ | ⟨rfl, rfl⟩
      · refine Or.inl ⟨?_, by simp [hlog]⟩
        rcases hy with hy | rfl
        · exact Or.inl hy
        · exact Or.inr (Or.inr ⟨told, rfl, rfl⟩)
      · exact Or.inr ⟨rfl, Or.inr ⟨told, rfl, by simp [hlog, List.replicate]⟩⟩
  · obtain ⟨hA1, hL1⟩ := Later.step_x K hkx hA hL
    exact ⟨tx, ty, hA1, Or.inr hL1⟩

theorem OldInv.interleave (K : ScaledObject → Except String String) {root : Nat}
    {base : List (Option Nat)} {k : String} {oa ob : ScaledObject} {c0 : List Nat}
    {told : Nat} (hka : K oa = .ok k) (hkb : K ob = .ok k) (sched : List Bool) (c : Config)
    (h : OldInv root base k oa ob c0 told c.a c.b c.s) :
    OldInv root base k oa ob c0 told (Controller.runSched K sched c).a
      (Controller.runSched K sched c).b (Controller.runSched K sched c).s := by
  induction sched generalizing c with
  | nil => exact h
  | cons pick rest ih =>
    apply ih (c.next K pick)
    cases pick
    · simpa [Config.next] using (OldInv.step_one K hkb h.exchange).exchange
    · simpa [Config.next] using OldInv.step_one K hka h

theorem count_append_pair (l : List Nat) (a b t : Nat) :
    (l ++ [a, b]).count t =
      l.count t + (if t = a then 1 else 0) + (if t = b then 1 else 0) := by
  have : l ++ [a, b] = (l ++ [a]) ++ [b] := by simp
  rw [this, count_append_singleton, count_append_singleton]

/-- C8, as the code has it: two concurrent upserts of a key that maps to a
live cancel function `told`.  Whatever the interleaving, once both calls have
returned the registry maps the key to one of the two new cancel functions,
`w`, which has never been invoked, and `told` has been invoked; the
invocations that happened are either one of `told` and one of the other new
cancel function `l`, or two of `told` and none of `l`. -/
theorem concurrent_upserts_active_key (K : ScaledObject → Except String String)
    (s0 : State) (oa ob : ScaledObject) (k : String) (root told : Nat) (sched : List Bool)
    (hka : K oa = .ok k) (hkb : K ob = .ok k) (hctx : s0.ctx = some root)
    (hold : s0.scaledObjectsContexts k = some (.cancelFunc told))
    (hfresh : ∀ t ∈ s0.cancelCalls, t < s0.scopes.length)
    (htold : told < s0.scopes.length) (hlive : invocations s0 told = 0)
    (hq : (runSched K sched
      ⟨.upsert62 (.scaledObject oa), .upsert62 (.scaledObject ob), s0⟩).quiescent) :
    (runSched K sched ⟨.upsert62 (.scaledObject oa), .upsert62 (.scaledObject ob), s0⟩).s.scopes
        = s0.scopes ++ [some root, some root] ∧
    ∃ w l, ((w = s0.scopes.length ∧ l = s0.scopes.length + 1) ∨
        (w = s0.scopes.length + 1 ∧ l = s0.scopes.length)) ∧
      (runSched K sched ⟨.upsert62 (.scaledObject oa), .upsert62 (.scaledObject ob),
        s0⟩).s.scaledObjectsContexts k = some (.cancelFunc w) ∧
      invocations (runSched K sched ⟨.upsert62 (.scaledObject oa),
        .upsert62 (.scaledObject ob), s0⟩).s w = 0 ∧
      (((runSched K sched ⟨.upsert62 (.scaledObject oa), .upsert62 (.scaledObject ob),
            s0⟩).s.cancelCalls = s0.cancelCalls ++ [told, l] ∧
          invocations (runSched K sched ⟨.upsert62 (.scaledObject oa),
            .upsert62 (.scaledObject ob), s0⟩).s told = 1 ∧
          invocations (runSched K sched ⟨.upsert62 (.scaledObject oa),
            .upsert62 (.scaledObject ob), s0⟩).s l = 1) ∨
        ((runSched K sched ⟨.upsert62 (.scaledObject oa), .upsert62 (.scaledObject ob),
            s0⟩).s.cancelCalls = s0.cancelCalls ++ [told, told] ∧
          invocations (runSched K sched ⟨.upsert62 (.scaledObject oa),
            .upsert62 (.scaledObject ob), s0⟩).s told = 2 ∧
          invocations (runSched K sched ⟨.upsert62 (.scaledObject oa),
            .upsert62 (.scaledObject ob), s0⟩).s l = 0)) := by
  have h0 : OldInv root s0.scopes k oa ob s0.cancelCalls told
      (.upsert62 (.scaledObject oa)) (.upsert62 (.scaledObject ob)) s0 :=
    ⟨s0.scopes.length, s0.scopes.length + 1,
      ⟨hctx, by simp [allocated], Or.inl ⟨rfl, rfl⟩, fun _ _ => rfl,
        fun h => by simp [allocated] at h⟩,
      Or.inl ⟨0, 0, Or.inl ⟨Or.inl (Or.inl rfl), rfl⟩, Or.inl ⟨Or.inl (Or.inl rfl), rfl⟩,
        hold, by simp⟩⟩
  have h := OldInv.interleave K hka hkb sched
    ⟨.upsert62 (.scaledObject oa), .upsert62 (.scaledObject ob), s0⟩ h0
  obtain ⟨ha, hb⟩ := hq
  rw [ha, hb] at h
  obtain ⟨tx, ty, hA, hS⟩ := h
  rcases hS with ⟨mx, my, hx, _⟩ | hL
  · rcases hx with ⟨(hx | hx) | hx, _⟩ | ⟨hx, _⟩ <;> cases hx
  · obtain ⟨hsc, w, l, htok, hreg, hlog⟩ := Later.quiescent hA hL
    have hw0 := count_eq_zero_of_lt _ _ w hfresh (by omega)
    have hl0 := count_eq_zero_of_lt _ _ l hfresh (by omega)
    simp only [invocations] at hlive
    have hwl : w ≠ l := by omega
    have hwt : w ≠ told := by omega
    have hlt : l ≠ told := by omega
    have htl : told ≠ l := by omega
    refine ⟨hsc, w, l, htok, hreg, ?_, ?_⟩
    · rcases hlog with h | ⟨u, hu, h⟩
      · rw [invocations, h, count_append_singleton, count_append_singleton, hw0]
        simp [hwl, hwt]
      · cases hu
        rw [invocations, h, count_append_singleton, count_append_singleton, hw0]
        simp [hwt]
    · rcases hlog with h | ⟨u, hu, h⟩
      · left
        have h1 : (runSched K sched ⟨.upsert62 (.scaledObject oa),
            .upsert62 (.scaledObject ob), s0⟩).s.cancelCalls = s0.cancelCalls ++ [told, l] := by
          rw [h]; simp
        refine ⟨h1, ?_, ?_⟩
        · rw [invocations, h1, count_append_pair, hlive]
          simp [htl]
        · rw [invocations, h1, count_append_pair, hl0]
          simp [hlt]
      · right
        cases hu
        have h1 : (runSched K sched ⟨.upsert62 (.scaledObject oa),
            .upsert62 (.scaledObject ob), s0⟩).s.cancelCalls
              = s0.cancelCalls ++ [told, told] := by
          rw [h]; simp
        refine ⟨h1, ?_, ?_⟩
        · rw [invocations, h1, count_append_pair, hlive]
          simp
        · rw [invocations, h1, count_append_pair, hl0]
          simp [hlt]

theorem concurrent_upserts_active_key_witness :
    (runSched MetaNamespaceKeyFunc exSerial exUpserts).s.scopes
        = exActive.scopes ++ [some 1, some 1] ∧
    ∃ w l, ((w = exActive.scopes.length ∧ l = exActive.scopes.length + 1) ∨
        (w = exActive.scopes.length + 1 ∧ l = exActive.scopes.length)) ∧
      (runSched MetaNamespaceKeyFunc exSerial exUpserts).s.scaledObjectsContexts "ns/a"
        = some (.cancelFunc w) ∧
      invocations (runSched MetaNamespaceKeyFunc exSerial exUpserts).s w = 0 ∧
      (((runSched MetaNamespaceKeyFunc exSerial exUpserts).s.cancelCalls
            = exActive.cancelCalls ++ [2, l] ∧
          invocations (runSched MetaNamespaceKeyFunc exSerial exUpserts).s 2 = 1 ∧
          invocations (runSched MetaNamespaceKeyFunc exSerial exUpserts).s l = 1) ∨
        ((runSched MetaNamespaceKeyFunc exSerial exUpserts).s.cancelCalls
            = exActive.cancelCalls ++ [2, 2] ∧
          invocations (runSched MetaNamespaceKeyFunc exSerial exUpserts).s 2 = 2 ∧
          invocations (runSched MetaNamespaceKeyFunc exSerial exUpserts).s l = 0)) :=
  concurrent_upserts_active_key MetaNamespaceKeyFunc exActive exA2 exA3 "ns/a" 1 2 exSerial
    rfl rfl rfl (by simp [exActive]) (by simp [exActive]) (by simp [exActive])
    (by simp [invocations, exActive])
    (by simp [Config.quiescent, runSched, Config.next, step, MetaNamespaceKeyFunc, exA2, exA3,
      exActive, exSerial, WithCancel, SyncMap.LoadOrStore, SyncMap.Store, invokeIfCancelFunc,
      WatchScaledObjectWithContext])

/-- C8 fails as stated: let two upserts of `ns/a` alternate while `ns/a` maps
to the cancel function of scope 2.  Both load 2 and both invoke it; the first
stores its cancel function 3 (after seven steps it is the entry), the second
replaces it by 4.  At quiescence the replaced entry 2 has been invoked twice
and the replaced entry 3 not at all. -/
theorem concurrent_upserts_active_key_counterexample :
    (runSched MetaNamespaceKeyFunc exAlternate exUpserts).quiescent ∧
    (runSched MetaNamespaceKeyFunc [true, false, true, false, true, false, true]
      exUpserts).s.scaledObjectsContexts "ns/a" = some (.cancelFunc 3) ∧
    (runSched MetaNamespaceKeyFunc exAlternate exUpserts).s.scaledObjectsContexts "ns/a"
      = some (.cancelFunc 4) ∧
    (runSched MetaNamespaceKeyFunc exAlternate exUpserts).s.cancelCalls = [2, 2] ∧
    invocations (runSched MetaNamespaceKeyFunc exAlternate exUpserts).s 2 = 2 ∧
    invocations (runSched MetaNamespaceKeyFunc exAlternate exUpserts).s 3 = 0 := by
  simp [Config.quiescent, runSched, Config.next, step, MetaNamespaceKeyFunc, exA2, exA3,
    exActive, exAlternate, exUpserts, WithCancel, SyncMap.LoadOrStore, SyncMap.Store,
    invokeIfCancelFunc, WatchScaledObjectWithContext, invocations]

/-! ## Single steps of a delete -/

theorem step_delete83 (K : ScaledObject → Except String String) (o : ScaledObject)
    (k : String) (s : State) (hk : K o = .ok k) :
    step K (.delete83 (.scaledObject o)) s = (.delete92 k, s) := by
  simp [step, hk]

theorem step_delete92_loaded (K : ScaledObject → Except String String) (k : String)
    (v : Value) (s : State) (hv : s.scaledObjectsContexts k = some v) :
    step K (.delete92 k) s = (.delete94 k v, s) := by
  simp [step, SyncMap.Load, hv]

theorem step_delete94 (K : ScaledObject → Except String String) (k : String) (u : Nat)
    (s : State) :
    step K (.delete94 k (.cancelFunc u)) s =
      (.delete98 k, { s with cancelCalls := s.cancelCalls ++ [u] }) := rfl

theorem step_delete98 (K : ScaledObject → Except String String) (k : String) (s : State) :
    step K (.delete98 k) s =
      (.done,
        { s with scaledObjectsContexts := SyncMap.Delete s.scaledObjectsContexts k }) := rfl

/-! ## A delete racing with an upsert: preservation of the invariant -/

theorem Alloc1.of_eq {root : Nat} {base : List (Option Nat)} {u : Thread} {s : State}
    (h : Alloc1 root base u s) (u1 : Thread) (s1 : State)
    (hu : allocated u1 = allocated u) (hc : s1.ctx = s.ctx) (hs : s1.scopes = s.scopes) :
    Alloc1 root base u1 s1 :=
  ⟨hc ▸ h.ctx_eq, by rw [hs, hu]; exact h.scopes_eq⟩

theorem replicate_succ_append (c0 : List Nat) (m t : Nat) :
    c0 ++ List.replicate m t ++ [t] = c0 ++ List.replicate (m + 1) t := by
  rw [List.replicate_succ', List.append_assoc]

/-- A step of the delete keeps the invariant. -/
theorem RaceInv.step_delete (K : ScaledObject → Except String String) {root : Nat}
    {base : List (Option Nat)} {k : String} {od ou : ScaledObject} {c0 : List Nat}
    {told : Nat} {d u : Thread} {s : State} (hkd : K od = .ok k)
    (h : RaceInv root base k od ou c0 told d u s) :
    RaceInv root base k od ou c0 told (step K d s).1 u (step K d s).2 := by
  obtain ⟨hA, hS⟩ := h
  rcases hS with ⟨md, mu, hd, hu, hreg, hlog⟩ | ⟨hreg, hu, hd⟩ | ⟨hreg, rfl, hu⟩ |
    ⟨hreg, rfl, hu, hlog⟩ | ⟨hreg, rfl, hu, hlog⟩
  · rcases hd with ⟨rfl | rfl | rfl, rfl⟩ | ⟨rfl, rfl⟩
    · rw [step_delete83 K od k s hkd]
      exact ⟨hA, Or.inl ⟨0, mu, Or.inl ⟨Or.inr (Or.inl rfl), rfl⟩, hu, hreg, hlog⟩⟩
    · rw [step_delete92_loaded K k _ s hreg]
      exact ⟨hA, Or.inl ⟨0, mu, Or.inl ⟨Or.inr (Or.inr rfl), rfl⟩, hu, hreg, hlog⟩⟩
    · rw [step_delete94]
      refine ⟨hA.of_eq _ _ rfl rfl rfl,
        Or.inl ⟨1, mu, Or.inr ⟨rfl, rfl⟩, hu, hreg, ?_⟩⟩
      show s.cancelCalls ++ [told] = c0 ++ List.replicate (1 + mu) told
      rw [hlog, Nat.zero_add, Nat.add_comm, replicate_succ_append]
    · rw [step_delete98]
      refine ⟨hA.of_eq _ _ rfl rfl rfl,
        Or.inr (Or.inr (Or.inl ⟨by simp [SyncMap.Delete], rfl, ?_⟩))⟩
      rcases hu with ⟨hu, rfl⟩ | ⟨rfl, rfl⟩
      · exact Or.inl ⟨hu, by simp [hlog]⟩
      · exact Or.inr ⟨rfl, by simp [hlog, List.replicate]⟩
  · rcases hd with ⟨rfl | rfl | rfl | rfl, hlog⟩ | ⟨rfl, hlog⟩
    · rw [step_delete83 K od k s hkd]
      exact ⟨hA, Or.inr (Or.inl ⟨hreg, hu, Or.inl ⟨Or.inr (Or.inl rfl), hlog⟩⟩)⟩
    · rw [step_delete92_loaded K k _ s hreg]
      exact ⟨hA, Or.inr (Or.inl ⟨hreg, hu, Or.inl ⟨Or.inr (Or.inr (Or.inr rfl)), hlog⟩⟩)⟩
    · rw [step_delete94]
      exact ⟨hA.of_eq _ _ rfl rfl rfl,
        Or.inr (Or.inl ⟨hreg, hu, Or.inr ⟨rfl, Or.inl (by simp [hlog])⟩⟩)⟩
    · rw [step_delete94]
      exact ⟨hA.of_eq _ _ rfl rfl rfl,
        Or.inr (Or.inl ⟨hreg, hu, Or.inr ⟨rfl, Or.inr (by simp [hlog])⟩⟩)⟩
    · rw [step_delete98]
      exact ⟨hA.of_eq _ _ rfl rfl rfl,
        Or.inr (Or.inr (Or.inr (Or.inl ⟨by simp [SyncMap.Delete], rfl, hu, hlog⟩)))⟩
  · exact ⟨hA, Or.inr (Or.inr (Or.inl ⟨hreg, rfl, hu⟩))⟩
  · exact ⟨hA, Or.inr (Or.inr (Or.inr (Or.inl ⟨hreg, rfl, hu, hlog⟩)))⟩
  · exact ⟨hA, Or.inr (Or.inr (Or.inr (Or.inr ⟨hreg, rfl, hu, hlog⟩)))⟩

/-- The step that takes the upsert through line 69: the new scope is the next
free one. -/
theorem Alloc1.step_alloc (K : ScaledObject → Except String String) {root : Nat}
    {base : List (Option Nat)} {s : State} (o : ScaledObject) (k : String)
    (hk : K o = .ok k) (h : Alloc1 root base (.upsert62 (.scaledObject o)) s) :
    step K (.upsert62 (.scaledObject o)) s =
        (.upsert71 o k base.length, { s with scopes := s.scopes ++ [some root] }) ∧
      Alloc1 root base (.upsert71 o k base.length)
        { s with scopes := s.scopes ++ [some root] } := by
  have hlen : s.scopes.length = base.length := by
    rw [h.scopes_eq]
    simp [allocated]
  refine ⟨by rw [step_upsert62 K o k root s hk h.ctx_eq, hlen], h.ctx_eq, ?_⟩
  show s.scopes ++ [some root] = base ++ List.replicate 1 (some root)
  rw [h.scopes_eq]
  simp [allocated]

theorem Stored.step (K : ScaledObject → Except String String) {o : ScaledObject} {t : Nat}
    {u : Thread} (s : State) (h : Stored o t u) :
    Stored o t (step K u s).1 ∧ allocated (step K u s).1 = allocated u ∧
      (step K u s).2.ctx = s.ctx ∧ (step K u s).2.scopes = s.scopes ∧
      (step K u s).2.scaledObjectsContexts = s.scaledObjectsContexts ∧
      (step K u s).2.cancelCalls = s.cancelCalls := by
  rcases h with rfl | rfl
  · exact ⟨Or.inr rfl, rfl, rfl, rfl, rfl, rfl⟩
  · exact ⟨Or.inr rfl, rfl, rfl, rfl, rfl, rfl⟩

/-- A step of the upsert keeps the invariant. -/
theorem RaceInv.step_upsert (K : ScaledObject → Except String String) {root : Nat}
    {base : List (Option Nat)} {k : String} {od ou : ScaledObject} {c0 : List Nat}
    {told : Nat} {d u : Thread} {s : State} (hku : K ou = .ok k)
    (h : RaceInv root base k od ou c0 told d u s) :
    RaceInv root base k od ou c0 told d (step K u s).1 (step K u s).2 := by
  obtain ⟨hA, hS⟩ := h
  rcases hS with ⟨md, mu, hd, hu, hreg, hlog⟩ | ⟨hreg, hu, hd⟩ | ⟨hreg, rfl, hu⟩ |
    ⟨hreg, rfl, hu, hlog⟩ | ⟨hreg, rfl, hu, hlog⟩
  · rcases hu with ⟨(rfl | rfl) | rfl, rfl⟩ | ⟨rfl, rfl⟩
    · obtain ⟨hs, hA1⟩ := hA.step_alloc K ou k hku
      rw [hs]
      exact ⟨hA1, Or.inl ⟨md, 0, hd, Or.inl ⟨Or.inl (Or.inr rfl), rfl⟩, hreg, hlog⟩⟩
    · rw [step_upsert71_loaded K ou k _ _ s hreg]
      exact ⟨hA.of_eq _ _ rfl rfl rfl,
        Or.inl ⟨md, 0, hd, Or.inl ⟨Or.inr rfl, rfl⟩, hreg, hlog⟩⟩
    · rw [step_upsert73]
      refine ⟨hA.of_eq _ _ rfl rfl rfl,
        Or.inl ⟨md, 1, hd, Or.inr ⟨rfl, rfl⟩, hreg, ?_⟩⟩
      show s.cancelCalls ++ [told] = c0 ++ List.replicate (md + 1) told
      rw [hlog, Nat.add_zero, replicate_succ_append]
    · rw [step_upsert77]
      refine ⟨hA.of_eq _ _ rfl rfl rfl,
        Or.inr (Or.inl ⟨by simp [SyncMap.Store], Or.inl rfl, ?_⟩)⟩
      rcases hd with ⟨hd, rfl⟩ | ⟨rfl, rfl⟩
      · refine Or.inl ⟨?_, by simp [hlog]⟩
        rcases hd with hd | hd | hd
        · exact Or.inl hd
        · exact Or.inr (Or.inl hd)
        · exact Or.inr (Or.inr (Or.inl hd))
      · exact Or.inr ⟨rfl, Or.inl (by simp [hlog, List.replicate])⟩
  · obtain ⟨h1, h2, h3, h4, h5, h6⟩ := hu.step K s
    refine ⟨hA.of_eq _ _ h2 h3 h4, Or.inr (Or.inl ⟨by rw [h5]; exact hreg, h1, ?_⟩)⟩
    rw [h6]
    exact hd
  · rcases hu with ⟨(rfl | rfl) | rfl, hlog⟩ | ⟨rfl, hlog⟩
    · obtain ⟨hs, hA1⟩ := hA.step_alloc K ou k hku
      rw [hs]
      exact ⟨hA1, Or.inr (Or.inr (Or.inl ⟨hreg, rfl, Or.inl ⟨Or.inl (Or.inr rfl), hlog⟩⟩))⟩
    · rw [step_upsert71_stored K ou k _ s hreg]
      exact ⟨hA.of_eq _ _ rfl rfl rfl,
        Or.inr (Or.inr (Or.inr (Or.inr
          ⟨by simp [SyncMap.Store], rfl, Or.inl rfl, Or.inl hlog⟩)))⟩
    · rw [step_upsert73]
      exact ⟨hA.of_eq _ _ rfl rfl rfl,
        Or.inr (Or.inr (Or.inl ⟨hreg, rfl, Or.inr ⟨rfl, by simp [hlog]⟩⟩))⟩
    · rw [step_upsert77]
      exact ⟨hA.of_eq _ _ rfl rfl rfl,
        Or.inr (Or.inr (Or.inr (Or.inr
          ⟨by simp [SyncMap.Store], rfl, Or.inl rfl, Or.inr hlog⟩)))⟩
  · obtain ⟨h1, h2, h3, h4, h5, h6⟩ := hu.step K s
    exact ⟨hA.of_eq _ _ h2 h3 h4,
      Or.inr (Or.inr (Or.inr (Or.inl ⟨by rw [h5]; exact hreg, rfl, h1, by rw [h6]; exact hlog⟩)))⟩
  · obtain ⟨h1, h2, h3, h4, h5, h6⟩ := hu.step K s
    exact ⟨hA.of_eq _ _ h2 h3 h4,
      Or.inr (Or.inr (Or.inr (Or.inr ⟨by rw [h5]; exact hreg, rfl, h1, by rw [h6]; exact hlog⟩)))⟩

theorem RaceInv.race (K : ScaledObject → Except String String) {root : Nat}
    {base : List (Option Nat)} {k : String} {od ou : ScaledObject} {c0 : List Nat}
    {told : Nat} (hkd : K od = .ok k) (hku : K ou = .ok k) (sched : List Bool) (c : Config)
    (h : RaceInv root base k od ou c0 told c.a c.b c.s) :
    RaceInv root base k od ou c0 told (Controller.runSched K sched c).a
      (Controller.runSched K sched c).b (Controller.runSched K sched c).s := by
  induction sched generalizing c with
  | nil => exact h
  | cons pick rest ih =>
    apply ih (c.next K pick)
    cases pick
    · simpa [Config.next] using RaceInv.step_upsert K hku h
    · simpa [Config.next] using RaceInv.step_delete K hkd h

/-- C9, as the code has it: a delete racing with an upsert on a key that maps
to `told`.  Whatever the interleaving, at every moment at which the registry
no longer maps the key to `told`, `told` has been invoked; and once both calls
have returned, either the registry maps the key to the new cancel function,
which has not been invoked, and `told` has been invoked once or twice, or the
key has no entry and the invocations were `told` followed by the new cancel
function, or `told` twice. -/
theorem delete_upsert_race (K : ScaledObject → Except String String)
    (s0 : State) (od ou : ScaledObject) (k : String) (root told : Nat) (sched : List Bool)
    (hkd : K od = .ok k) (hku : K ou = .ok k) (hctx : s0.ctx = some root)
    (hold : s0.scaledObjectsContexts k = some (.cancelFunc told))
    (hfresh : ∀ t ∈ s0.cancelCalls, t < s0.scopes.length)
    (htold : told < s0.scopes.length) :
    ((runSched K sched ⟨.delete83 (.scaledObject od), .upsert62 (.scaledObject ou),
          s0⟩).s.scaledObjectsContexts k ≠ some (.cancelFunc told) →
      ∃ rest, (runSched K sched ⟨.delete83 (.scaledObject od), .upsert62 (.scaledObject ou),
          s0⟩).s.cancelCalls = s0.cancelCalls ++ told :: rest) ∧
    ((runSched K sched ⟨.delete83 (.scaledObject od), .upsert62 (.scaledObject ou),
          s0⟩).quiescent →
      ((runSched K sched ⟨.delete83 (.scaledObject od), .upsert62 (.scaledObject ou),
            s0⟩).s.scaledObjectsContexts k = some (.cancelFunc s0.scopes.length) ∧
          invocations (runSched K sched ⟨.delete83 (.scaledObject od),
            .upsert62 (.scaledObject ou), s0⟩).s s0.scopes.length = 0 ∧
          ((runSched K sched ⟨.delete83 (.scaledObject od), .upsert62 (.scaledObject ou),
              s0⟩).s.cancelCalls = s0.cancelCalls ++ [told] ∨
            (runSched K sched ⟨.delete83 (.scaledObject od), .upsert62 (.scaledObject ou),
              s0⟩).s.cancelCalls = s0.cancelCalls ++ [told, told])) ∨
      ((runSched K sched ⟨.delete83 (.scaledObject od), .upsert62 (.scaledObject ou),
            s0⟩).s.scaledObjectsContexts k = none ∧
          ((runSched K sched ⟨.delete83 (.scaledObject od), .upsert62 (.scaledObject ou),
              s0⟩).s.cancelCalls = s0.cancelCalls ++ [told, s0.scopes.length] ∨
            (runSched K sched ⟨.delete83 (.scaledObject od), .upsert62 (.scaledObject ou),
              s0⟩).s.cancelCalls = s0.cancelCalls ++ [told, told]))) := by
  have h0 : RaceInv root s0.scopes k od ou s0.cancelCalls told
      (.delete83 (.scaledObject od)) (.upsert62 (.scaledObject ou)) s0 :=
    ⟨⟨hctx, by simp [allocated]⟩,
      Or.inl ⟨0, 0, Or.inl ⟨Or.inl rfl, rfl⟩, Or.inl ⟨Or.inl (Or.inl rfl), rfl⟩, hold,
        by simp⟩⟩
  have h := RaceInv.race K hkd hku sched
    ⟨.delete83 (.scaledObject od), .upsert62 (.scaledObject ou), s0⟩ h0
  have hn0 := count_eq_zero_of_lt _ _ s0.scopes.length hfresh (Nat.le_refl _)
  have hne : s0.scopes.length ≠ told := by omega
  obtain ⟨_, hS⟩ := h
  constructor
  · intro hreg
    rcases hS with ⟨_, _, _, _, h1, _⟩ | ⟨_, _, h1⟩ | ⟨_, _, h1⟩ | ⟨_, _, _, h1⟩ |
      ⟨_, _, _, h1⟩
    · exact absurd h1 hreg
    · rcases h1 with ⟨_, h1⟩ | ⟨_, h1 | h1⟩
      · exact ⟨[], h1⟩
      · exact ⟨[told], h1⟩
      · exact ⟨[s0.scopes.length], h1⟩
    · rcases h1 with ⟨_, h1⟩ | ⟨_, h1⟩
      · exact ⟨[], h1⟩
      · exact ⟨[told], h1⟩
    · rcases h1 with h1 | h1
      · exact ⟨[told], h1⟩
      · exact ⟨[s0.scopes.length], h1⟩
    · rcases h1 with h1 | h1
      · exact ⟨[], h1⟩
      · exact ⟨[told], h1⟩
  · rintro ⟨ha, hb⟩
    rw [ha, hb] at hS
    rcases hS with ⟨_, _, hd, _⟩ | ⟨_, _, hd⟩ | ⟨_, _, hu⟩ | ⟨hreg, _, _, hlog⟩ |
      ⟨hreg, _, _, hlog⟩
    · rcases hd with ⟨hd | hd | hd, _⟩ | ⟨hd, _⟩ <;> cases hd
    · rcases hd with ⟨hd | hd | hd | hd, _⟩ | ⟨hd, _⟩ <;> cases hd
    · rcases hu with ⟨(hu | hu) | hu, _⟩ | ⟨hu, _⟩ <;> cases hu
    · exact Or.inr ⟨hreg, hlog.symm⟩
    · refine Or.inl ⟨hreg, ?_, hlog⟩
      rcases hlog with h1 | h1
      · rw [invocations, h1, count_append_singleton, hn0]
        simp [hne]
      · rw [invocations, h1, count_append_pair, hn0]
        simp [hne]

theorem delete_upsert_race_witness :
    ((runSched MetaNamespaceKeyFunc exStoreBetween exRace).s.scaledObjectsContexts "ns/a"
        ≠ some (.cancelFunc 2) →
      ∃ rest, (runSched MetaNamespaceKeyFunc exStoreBetween exRace).s.cancelCalls
        = exActive.cancelCalls ++ 2 :: rest) ∧
    ((runSched MetaNamespaceKeyFunc exStoreBetween exRace).quiescent →
      ((runSched MetaNamespaceKeyFunc exStoreBetween exRace).s.scaledObjectsContexts "ns/a"
            = some (.cancelFunc exActive.scopes.length) ∧
          invocations (runSched MetaNamespaceKeyFunc exStoreBetween exRace).s
            exActive.scopes.length = 0 ∧
          ((runSched MetaNamespaceKeyFunc exStoreBetween exRace).s.cancelCalls
              = exActive.cancelCalls ++ [2] ∨
            (runSched MetaNamespaceKeyFunc exStoreBetween exRace).s.cancelCalls
              = exActive.cancelCalls ++ [2, 2])) ∨
      ((runSched MetaNamespaceKeyFunc exStoreBetween exRace).s.scaledObjectsContexts "ns/a"
            = none ∧
          ((runSched MetaNamespaceKeyFunc exStoreBetween exRace).s.cancelCalls
              = exActive.cancelCalls ++ [2, exActive.scopes.length] ∨
            (runSched MetaNamespaceKeyFunc exStoreBetween exRace).s.cancelCalls
              = exActive.cancelCalls ++ [2, 2]))) :=
  delete_upsert_race MetaNamespaceKeyFunc exActive exA1 exA2 "ns/a" 1 2 exStoreBetween
    rfl rfl rfl (by simp [exActive]) (by simp [exActive]) (by simp [exActive])

/-- C9 fails as stated: on the controller in which `ns/a` maps to the cancel
function of scope 2, let the delete load the entry, then the upsert run
through its `Store`, then the delete go on.  After seven steps the delete
stands before `Delete`, the only invocations so far are two of 2, and the
entry is the upsert's new cancel function 3; the `Delete` that follows removes
that entry.  At quiescence the key has no entry and 3 has never been invoked:
the token the delete invoked, 2, is not the token whose entry it removed. -/
theorem delete_upsert_race_counterexample :
    (runSched MetaNamespaceKeyFunc exStoreBetween exRace).quiescent ∧
    (runSched MetaNamespaceKeyFunc [true, true, false, false, false, false, true]
      exRace).a = .delete98 "ns/a" ∧
    (runSched MetaNamespaceKeyFunc [true, true, false, false, false, false, true]
      exRace).s.cancelCalls = [2, 2] ∧
    (runSched MetaNamespaceKeyFunc [true, true, false, false, false, false, true]
      exRace).s.scaledObjectsContexts "ns/a" = some (.cancelFunc 3) ∧
    (runSched MetaNamespaceKeyFunc exStoreBetween exRace).s.scaledObjectsContexts "ns/a"
      = none ∧
    (runSched MetaNamespaceKeyFunc exStoreBetween exRace).s.cancelCalls = [2, 2] ∧
    invocations (runSched MetaNamespaceKeyFunc exStoreBetween exRace).s 3 = 0 := by
  simp [Config.quiescent, runSched, Config.next, step, MetaNamespaceKeyFunc, exA1, exA2,
    exActive, exStoreBetween, exRace, WithCancel, SyncMap.LoadOrStore, SyncMap.Store,
    SyncMap.Load, SyncMap.Delete, invokeIfCancelFunc, WatchScaledObjectWithContext,
    invocations]

/-! ## Every fair schedule reaches quiescence -/

theorem step_ctx (K : ScaledObject → Except String String) (t : Thread) (s : State) :
    (step K t s).2.ctx = s.ctx := by
  cases t with
  | upsert62 obj =>
    cases obj with
    | other tag => rfl
    | scaledObject o =>
      cases hk : K o with
      | error e => simp [step, hk]
      | ok k =>
        cases hc : s.ctx with
        | none => simp [step, hk, hc]
        | some root => simp [step, hk, hc, WithCancel]
  | upsert71 o k t =>
    cases hv : s.scaledObjectsContexts k <;> simp [step, SyncMap.LoadOrStore, hv]
  | upsert73 o k t v => cases v <;> rfl
  | delete83 obj =>
    cases obj with
    | other tag => rfl
    | scaledObject o => cases hk : K o <;> simp [step, hk]
  | delete92 k => cases hv : s.scaledObjectsContexts k <;> simp [step, SyncMap.Load, hv]
  | delete94 k v => cases v <;> rfl
  | _ => rfl

theorem remaining_step (K : ScaledObject → Except String String) (t : Thread) (s : State) :
    remaining (step K t s).1 ≤ remaining t - 1 := by
  cases t with
  | upsert62 obj =>
    cases obj with
    | other tag => simp [step, remaining]
    | scaledObject o =>
      cases hk : K o with
      | error e => simp [step, hk, remaining]
      | ok k => cases hc : s.ctx <;> simp [step, hk, hc, remaining]
  | upsert71 o k t =>
    cases hv : s.scaledObjectsContexts k <;>
      simp [step, SyncMap.LoadOrStore, hv, remaining]
  | delete83 obj =>
    cases obj with
    | other tag => simp [step, remaining]
    | scaledObject o => cases hk : K o <;> simp [step, hk, remaining]
  | delete92 k =>
    cases hv : s.scaledObjectsContexts k <;> simp [step, SyncMap.Load, hv, remaining]
  | _ => simp [step, remaining]

theorem safe_step (K : ScaledObject → Except String String) {t : Thread} {s : State}
    {root : Nat} (hc : s.ctx = some root) (h : Safe t) : Safe (step K t s).1 := by
  cases t with
  | upsert62 obj =>
    cases obj with
    | other tag => exact h.elim
    | scaledObject o => cases hk : K o <;> simp [step, hk, hc, Safe]
  | upsert71 o k t =>
    cases hv : s.scaledObjectsContexts k <;> simp [step, SyncMap.LoadOrStore, hv, Safe]
  | delete83 obj =>
    cases obj with
    | other tag => exact h.elim
    | scaledObject o => cases hk : K o <;> simp [step, hk, Safe]
  | delete92 k =>
    cases hv : s.scaledObjectsContexts k <;> simp [step, SyncMap.Load, hv, Safe]
  | panicked => exact h.elim
  | _ => simp [step, Safe]

theorem done_of_remaining_zero {t : Thread} (hs : Safe t) (h : remaining t = 0) :
    t = .done := by
  cases t <;> simp_all [remaining, Safe]

/-- Two handlers that were given `*ScaledObject` payloads on a running
controller have both returned after every schedule that gives each of them as
many turns as it can take steps (five are always enough). -/
theorem quiescent_of_fair (K : ScaledObject → Except String String) (sched : List Bool)
    (c : Config) (root : Nat) (hc : c.s.ctx = some root) (ha : Safe c.a) (hb : Safe c.b)
    (hta : remaining c.a ≤ sched.count true) (htb : remaining c.b ≤ sched.count false) :
    (runSched K sched c).quiescent := by
  induction sched generalizing c with
  | nil =>
    simp only [List.count_nil, Nat.le_zero] at hta htb
    exact ⟨done_of_remaining_zero ha hta, done_of_remaining_zero hb htb⟩
  | cons pick rest ih =>
    cases pick with
    | true =>
      have hr := remaining_step K c.a c.s
      apply ih (c.next K true)
      · simp [Config.next, step_ctx, hc]
      · simpa [Config.next] using safe_step K hc ha
      · simpa [Config.next] using hb
      · simp only [List.count_cons_self] at hta
        simp only [Config.next, if_true]
        omega
      · simpa [Config.next] using htb
    | false =>
      have hr := remaining_step K c.b c.s
      apply ih (c.next K false)
      · simp [Config.next, step_ctx, hc]
      · simpa [Config.next] using ha
      · simpa [Config.next] using safe_step K hc hb
      · simpa [Config.next] using hta
      · simp only [List.count_cons_self] at htb
        simp only [Config.next]
        simp only [Bool.false_eq_true, if_false]
        omega

/-! ## Upserts are never filtered; faults in the payload -/

/-- Whatever the registry holds, an upsert with a derivable key returns, with
one more scope, one more watch task (on that scope and the given object) and
the scope's cancel function as the key's entry. -/
theorem syncScaledObject_dispatch (K : ScaledObject → Except String String)
    (c : State) (o : ScaledObject) (k : String) (root : Nat)
    (hkey : K o = .ok k) (hctx : c.ctx = some root) :
    ∃ c1, syncScaledObject K (.scaledObject o) c = .ok c1 ∧
      c1.ctx = c.ctx ∧
      c1.scopes = c.scopes ++ [some root] ∧
      c1.watches = c.watches ++ [(c.scopes.length, o)] ∧
      c1.scaledObjectsContexts k = some (.cancelFunc c.scopes.length) := by
  cases hv : c.scaledObjectsContexts k with
  | none =>
    exact ⟨_, syncScaledObject_stored K c o k root hkey hctx hv, rfl, rfl, rfl,
      by simp [SyncMap.Store]⟩
  | some v =>
    exact ⟨_, syncScaledObject_loaded K c o k v root hkey hctx hv, rfl, rfl, rfl,
      by simp [SyncMap.Store]⟩

/-- C11: unconditional replace-and-restart.  For every state of a running
controller and every object with a derivable key, `syncScaledObject` returns
having created one scope and dispatched exactly one watch task, with that
scope and the given object, and the scope's cancel function is the key's
entry.  A second call with the very same object is not filtered: it again
creates a scope, dispatches one watch task with it and the object, installs
it, and invokes the cancel function installed by the first call. -/
theorem syncScaledObject_unconditional (K : ScaledObject → Except String String)
    (c : State) (o : ScaledObject) (k : String) (root : Nat)
    (hkey : K o = .ok k) (hctx : c.ctx = some root) :
    ∃ c1, syncScaledObject K (.scaledObject o) c = .ok c1 ∧
      c1.scopes = c.scopes ++ [some root] ∧
      c1.watches = c.watches ++ [(c.scopes.length, o)] ∧
      c1.scaledObjectsContexts k = some (.cancelFunc c.scopes.length) ∧
      ∃ c2, syncScaledObject K (.scaledObject o) c1 = .ok c2 ∧
        c2.scopes = c1.scopes ++ [some root] ∧
        c2.watches = c1.watches ++ [(c1.scopes.length, o)] ∧
        c2.scaledObjectsContexts k = some (.cancelFunc c1.scopes.length) ∧
        c2.cancelCalls = c1.cancelCalls ++ [c.scopes.length] := by
  obtain ⟨c1, h1, hc1, hs1, hw1, hr1⟩ := syncScaledObject_dispatch K c o k root hkey hctx
  have hctx1 : c1.ctx = some root := hc1.trans hctx
  refine ⟨c1, h1, hs1, hw1, hr1, _,
    syncScaledObject_loaded K c1 o k _ root hkey hctx1 hr1, rfl, rfl, ?_, rfl⟩
  simp [SyncMap.Store]

theorem syncScaledObject_unconditional_witness :
    ∃ c1, syncScaledObject MetaNamespaceKeyFunc (.scaledObject exA1) exActive = .ok c1 ∧
      c1.scopes = exActive.scopes ++ [some 1] ∧
      c1.watches = exActive.watches ++ [(exActive.scopes.length, exA1)] ∧
      c1.scaledObjectsContexts "ns/a" = some (.cancelFunc exActive.scopes.length) ∧
      ∃ c2, syncScaledObject MetaNamespaceKeyFunc (.scaledObject exA1) c1 = .ok c2 ∧
        c2.scopes = c1.scopes ++ [some 1] ∧
        c2.watches = c1.watches ++ [(c1.scopes.length, exA1)] ∧
        c2.scaledObjectsContexts "ns/a" = some (.cancelFunc c1.scopes.length) ∧
        c2.cancelCalls = c1.cancelCalls ++ [exActive.scopes.length] :=
  syncScaledObject_unconditional MetaNamespaceKeyFunc exActive exA1 "ns/a" 1 rfl rfl

/-- C12 fails on the code: a payload that is not a `*ScaledObject` makes each
of the three handlers panic at its unchecked type assertion (lines 62, 48-49
and 83) instead of returning; in the step semantics the handler ends in
`panicked` with the state as it was. -/
theorem type_mismatch_panics (K : ScaledObject → Except String String) (c : State)
    (tag : Nat) (obj : Obj) :
    AddFunc K (.other tag) c
      = .error "interface conversion: interface is not *ScaledObject" ∧
    DeleteFunc K (.other tag) c
      = .error "interface conversion: interface is not *ScaledObject" ∧
    UpdateFunc K obj (.other tag) c
      = .error "interface conversion: interface is not *ScaledObject" ∧
    UpdateFunc K (.other tag) obj c
      = .error "interface conversion: interface is not *ScaledObject" ∧
    step K (.upsert62 (.other tag)) c = (.panicked, c) ∧
    step K (.delete83 (.other tag)) c = (.panicked, c) := by
  refine ⟨rfl, rfl, rfl, ?_, rfl, rfl⟩
  cases obj <;> rfl

/-- C13: a key-derivation failure mutates nothing.  When
`cache.MetaNamespaceKeyFunc` fails on the object, both `syncScaledObject` and
`syncDeletedScaledObject` return normally with the state exactly as it was:
registry, created scopes, invocation record and dispatched watch tasks. -/
theorem key_failure_is_dropped (K : ScaledObject → Except String String) (c : State)
    (o : ScaledObject) (e : String) (hkey : K o = .error e) :
    syncScaledObject K (.scaledObject o) c = .ok c ∧
    syncDeletedScaledObject K (.scaledObject o) c = .ok c := by
  constructor
  · simp [syncScaledObject, hkey]
  · simp [syncDeletedScaledObject, hkey]

theorem key_failure_is_dropped_witness :
    syncScaledObject MetaNamespaceKeyFunc (.scaledObject exNoName) exActive = .ok exActive ∧
    syncDeletedScaledObject MetaNamespaceKeyFunc (.scaledObject exNoName) exActive
      = .ok exActive :=
  key_failure_is_dropped MetaNamespaceKeyFunc exActive exNoName "object has no meta" rfl

/-! ## What a returning handler has done -/

/-- A call of `syncScaledObject` that returns has either changed nothing (the
key could not be derived) or produced the state `upserted`. -/
theorem syncScaledObject_ok_cases (K : ScaledObject → Except String String) (obj : Obj)
    (c c1 : State) (h : syncScaledObject K obj c = .ok c1) :
    c1 = c ∨ ∃ o k root, obj = .scaledObject o ∧ K o = .ok k ∧ c.ctx = some root ∧
      c1 = upserted c o k root := by
  cases obj with
  | other tag => simp [syncScaledObject] at h
  | scaledObject o =>
    cases hk : K o with
    | error e =>
      left
      simpa [syncScaledObject, hk] using h.symm
    | ok k =>
      cases hc : c.ctx with
      | none => simp [syncScaledObject, hk, hc] at h
      | some root =>
        right
        refine ⟨o, k, root, rfl, hk, rfl, ?_⟩
        cases hv : c.scaledObjectsContexts k with
        | none =>
          rw [syncScaledObject_stored K c o k root hk hc hv] at h
          rw [← Except.ok.inj h]
          simp [upserted, hv]
        | some v =>
          rw [syncScaledObject_loaded K c o k v root hk hc hv] at h
          rw [← Except.ok.inj h]
          simp [upserted, hv]

/-- A call of `syncDeletedScaledObject` that returns has either changed
nothing or produced the state `deleted`. -/
theorem syncDeletedScaledObject_ok_cases (K : ScaledObject → Except String String)
    (obj : Obj) (c c1 : State) (h : syncDeletedScaledObject K obj c = .ok c1) :
    c1 = c ∨ ∃ o k v, obj = .scaledObject o ∧ K o = .ok k ∧
      c.scaledObjectsContexts k = some v ∧ c1 = deleted c k v := by
  cases obj with
  | other tag => simp [syncDeletedScaledObject] at h
  | scaledObject o =>
    cases hk : K o with
    | error e =>
      left
      simpa [syncDeletedScaledObject, hk] using h.symm
    | ok k =>
      cases hv : c.scaledObjectsContexts k with
      | none =>
        left
        rw [syncDeletedScaledObject_absent K c o k hk hv] at h
        exact (Except.ok.inj h).symm
      | some v =>
        right
        rw [syncDeletedScaledObject_loaded K c o k v hk hv] at h
        exact ⟨o, k, v, rfl, hk, hv, (Except.ok.inj h).symm⟩

/-! ## Registry values are always cancel functions -/

theorem AllCancelFuncs.of_upserted {c : State} (h : AllCancelFuncs c) (o : ScaledObject)
    (k : String) (root : Nat) : AllCancelFuncs (Controller.upserted c o k root) := by
  intro k1 v hv
  by_cases hk : k1 = k
  · simp only [Controller.upserted, SyncMap.Store, hk, if_true] at hv
    exact ⟨_, (Option.some.inj hv).symm⟩
  · simp only [Controller.upserted, SyncMap.Store, hk, if_false] at hv
    exact h k1 v hv

theorem AllCancelFuncs.of_deleted {c : State} (h : AllCancelFuncs c) (k : String)
    (v : Value) : AllCancelFuncs (Controller.deleted c k v) := by
  intro k1 v1 hv
  by_cases hk : k1 = k
  · simp [Controller.deleted, SyncMap.Delete, hk] at hv
  · simp only [Controller.deleted, SyncMap.Delete, hk, if_false] at hv
    exact h k1 v1 hv

theorem AllCancelFuncs.after_call (K : ScaledObject → Except String String) {c c1 : State}
    (h : AllCancelFuncs c) (call : Call) (hrun : call.run K c = .ok c1) :
    AllCancelFuncs c1 := by
  cases call with
  | upsert o =>
    rcases syncScaledObject_ok_cases K (.scaledObject o) c c1 hrun with rfl | ⟨o1, k, root, _, _, _, rfl⟩
    · exact h
    · exact h.of_upserted o1 k root
  | delete o =>
    rcases syncDeletedScaledObject_ok_cases K (.scaledObject o) c c1 hrun with rfl | ⟨o1, k, v, _, _, _, rfl⟩
    · exact h
    · exact h.of_deleted k v

theorem AllCancelFuncs.after_calls (K : ScaledObject → Except String String) (calls : List Call)
    {c c1 : State} (h : AllCancelFuncs c) (hrun : runCalls K calls c = .ok c1) :
    AllCancelFuncs c1 := by
  induction calls generalizing c with
  | nil =>
    simp only [runCalls] at hrun
    exact Except.ok.inj hrun ▸ h
  | cons call rest ih =>
    simp only [runCalls] at hrun
    cases hc : call.run K c with
    | error e => simp [hc] at hrun
    | ok c2 =>
      simp only [hc] at hrun
      exact ih (h.after_call K call hc) hrun

/-- C17: registry values are always cancel functions.  In every state reached
from an empty registry by `syncScaledObject` / `syncDeletedScaledObject`
calls, every value in `scaledObjectsContexts` is a `context.CancelFunc`; so
an upsert on a key with an entry invokes that entry before it overwrites it,
and a delete on a key with an entry invokes that entry before it deletes it. -/
theorem registry_holds_cancel_funcs (K : ScaledObject → Except String String)
    (c0 c : State) (calls : List Call)
    (hreg : ∀ k, c0.scaledObjectsContexts k = none)
    (hrun : runCalls K calls c0 = .ok c) :
    (∀ k v, c.scaledObjectsContexts k = some v → ∃ t, v = .cancelFunc t) ∧
    (∀ o k v root, K o = .ok k → c.ctx = some root → c.scaledObjectsContexts k = some v →
      ∃ t c1, v = .cancelFunc t ∧ syncScaledObject K (.scaledObject o) c = .ok c1 ∧
        c1.cancelCalls = c.cancelCalls ++ [t] ∧
        c1.scaledObjectsContexts k = some (.cancelFunc c.scopes.length)) ∧
    (∀ o k v, K o = .ok k → c.scaledObjectsContexts k = some v →
      ∃ t c1, v = .cancelFunc t ∧ syncDeletedScaledObject K (.scaledObject o) c = .ok c1 ∧
        c1.cancelCalls = c.cancelCalls ++ [t] ∧
        c1.scaledObjectsContexts k = none) := by
  have h0 : AllCancelFuncs c0 := fun k v hv => by simp [hreg k] at hv
  have h : AllCancelFuncs c := h0.after_calls K calls hrun
  refine ⟨h, ?_, ?_⟩
  · intro o k v root hk hc hv
    obtain ⟨t, rfl⟩ := h k v hv
    exact ⟨t, _, rfl, syncScaledObject_loaded K c o k _ root hk hc hv, rfl,
      by simp [SyncMap.Store]⟩
  · intro o k v hk hv
    obtain ⟨t, rfl⟩ := h k v hv
    exact ⟨t, _, rfl, syncDeletedScaledObject_loaded K c o k _ hk hv, rfl,
      by simp [SyncMap.Delete]⟩

/-- Upserting `ns/a` and then `ns/c` on the running controller with an empty
registry gives the state `exTwoKeys`. -/
theorem runCalls_exTwoKeys :
    runCalls MetaNamespaceKeyFunc [.upsert exA1, .upsert exC1] exRunning = .ok exTwoKeys :=
  rfl

theorem registry_holds_cancel_funcs_witness :
    (∀ k v, exTwoKeys.scaledObjectsContexts k = some v → ∃ t, v = .cancelFunc t) ∧
    (∀ o k v root, MetaNamespaceKeyFunc o = .ok k → exTwoKeys.ctx = some root →
      exTwoKeys.scaledObjectsContexts k = some v →
      ∃ t c1, v = .cancelFunc t ∧
        syncScaledObject MetaNamespaceKeyFunc (.scaledObject o) exTwoKeys = .ok c1 ∧
        c1.cancelCalls = exTwoKeys.cancelCalls ++ [t] ∧
        c1.scaledObjectsContexts k = some (.cancelFunc exTwoKeys.scopes.length)) ∧
    (∀ o k v, MetaNamespaceKeyFunc o = .ok k → exTwoKeys.scaledObjectsContexts k = some v →
      ∃ t c1, v = .cancelFunc t ∧
        syncDeletedScaledObject MetaNamespaceKeyFunc (.scaledObject o) exTwoKeys = .ok c1 ∧
        c1.cancelCalls = exTwoKeys.cancelCalls ++ [t] ∧
        c1.scaledObjectsContexts k = none) :=
  registry_holds_cancel_funcs MetaNamespaceKeyFunc exRunning exTwoKeys
    [.upsert exA1, .upsert exC1] (fun _ => rfl) runCalls_exTwoKeys

/-! ## Key isolation -/

/-- A sequential run from an empty registry ends in a state that satisfies the
invariant of sequential runs. -/
theorem SeqInv.of_run (K : ScaledObject → Except String String) (c0 c : State)
    (root : Nat) (calls : List Call) (hctx : c0.ctx = some root)
    (hreg : ∀ k, c0.scaledObjectsContexts k = none)
    (hwatch : c0.watches = []) (hcancel : c0.cancelCalls = [])
    (hrun : Controller.runCalls K calls c0 = .ok c) :
    SeqInv K root c0.scopes.length c := by
  obtain ⟨c1, h1, hinv⟩ :=
    (SeqInv.initial K c0 root hctx hreg hwatch hcancel).runCalls calls
  rw [hrun] at h1
  exact Except.ok.inj h1 ▸ hinv

/-- C16: key isolation.  A call on an object whose key is `a` returns, leaves
the registry's entry (or absence of entry) for every other key `b` as it was
and invokes at most the cancel function stored under `a`, in whatever state
it is made; and in every state reached from an empty
registry by sequential calls it invokes no scope that was ever created for
`b`, in particular not the scope that is `b`'s entry. -/
theorem key_isolation (K : ScaledObject → Except String String) (c0 c : State)
    (root : Nat) (calls : List Call) (call : Call) (a b : String)
    (hctx : c0.ctx = some root) (hreg : ∀ k, c0.scaledObjectsContexts k = none)
    (hwatch : c0.watches = []) (hcancel : c0.cancelCalls = [])
    (hrun : runCalls K calls c0 = .ok c)
    (hka : K call.object = .ok a) (hab : a ≠ b) :
    (∀ s s1 : State, call.run K s = .ok s1 →
      s1.scaledObjectsContexts b = s.scaledObjectsContexts b ∧
      (s1.cancelCalls = s.cancelCalls ∨
        ∃ t, s.scaledObjectsContexts a = some (.cancelFunc t) ∧
          s1.cancelCalls = s.cancelCalls ++ [t])) ∧
    ∃ c1, call.run K c = .ok c1 ∧
      c1.scaledObjectsContexts b = c.scaledObjectsContexts b ∧
      (∀ t o, (t, o) ∈ c.watches → K o = .ok b → invocations c1 t = invocations c t) ∧
      (∀ t, c.scaledObjectsContexts b = some (.cancelFunc t) →
        invocations c1 t = invocations c t) := by
  have hba : ¬ b = a := fun e => hab e.symm
  have hframe : ∀ s s1 : State, call.run K s = .ok s1 →
      s1.scaledObjectsContexts b = s.scaledObjectsContexts b ∧
      (s1.cancelCalls = s.cancelCalls ∨
        ∃ t, s.scaledObjectsContexts a = some (.cancelFunc t) ∧
          s1.cancelCalls = s.cancelCalls ++ [t]) := by
    intro s s1 h
    cases call with
    | upsert o =>
      rcases syncScaledObject_ok_cases K (.scaledObject o) s s1 h with
        rfl | ⟨o1, k, r, ho, hk, _, rfl⟩
      · exact ⟨rfl, Or.inl rfl⟩
      · cases ho
        rw [show K o = .ok a from hka] at hk
        cases hk
        refine ⟨by simp [upserted, SyncMap.Store, hba], ?_⟩
        cases hv : s.scaledObjectsContexts a with
        | none => exact Or.inl (by simp [upserted, hv])
        | some v =>
          cases v with
          | cancelFunc t => exact Or.inr ⟨t, rfl, by simp [upserted, hv, invokeIfCancelFunc]⟩
          | other tag => exact Or.inl (by simp [upserted, hv, invokeIfCancelFunc])
    | delete o =>
      rcases syncDeletedScaledObject_ok_cases K (.scaledObject o) s s1 h with
        rfl | ⟨o1, k, v, ho, hk, hv, rfl⟩
      · exact ⟨rfl, Or.inl rfl⟩
      · cases ho
        rw [show K o = .ok a from hka] at hk
        cases hk
        refine ⟨by simp [deleted, SyncMap.Delete, hba], ?_⟩
        cases v with
        | cancelFunc t => exact Or.inr ⟨t, hv, by simp [deleted, invokeIfCancelFunc]⟩
        | other tag => exact Or.inl (by simp [deleted, invokeIfCancelFunc])
  have hinv := SeqInv.of_run K c0 c root calls hctx hreg hwatch hcancel hrun
  obtain ⟨c1, h1, _⟩ := hinv.call call
  refine ⟨hframe, c1, h1, (hframe c c1 h1).1, ?_⟩
  have hwatches : ∀ t o, (t, o) ∈ c.watches → K o = .ok b →
      invocations c1 t = invocations c t := by
    intro t o hm hkb
    have hother : ∀ v, c.scaledObjectsContexts a = some v →
        (invokeIfCancelFunc v c).cancelCalls.count t = c.cancelCalls.count t := by
      intro v hv
      obtain ⟨t0, o0, rfl, hm0, hk0, _⟩ := hinv.entry a v hv
      have hne : t ≠ t0 := by
        intro e
        subst e
        have := snd_eq_of_nodup_fst c.watches hinv.nodup t o o0 hm hm0
        subst this
        rw [hkb] at hk0
        exact hba (Except.ok.inj hk0)
      simp [invokeIfCancelFunc, count_append_singleton, hne]
    cases call with
    | upsert o1 =>
      rcases syncScaledObject_ok_cases K (.scaledObject o1) c c1 h1 with
        rfl | ⟨o2, k, r, ho, hk, _, rfl⟩
      · rfl
      · cases ho
        rw [show K o1 = .ok a from hka] at hk
        cases hk
        cases hv : c.scaledObjectsContexts a with
        | none => simp [invocations, upserted, hv]
        | some v => simpa [invocations, upserted, hv] using hother v hv
    | delete o1 =>
      rcases syncDeletedScaledObject_ok_cases K (.scaledObject o1) c c1 h1 with
        rfl | ⟨o2, k, v, ho, hk, hv, rfl⟩
      · rfl
      · cases ho
        rw [show K o1 = .ok a from hka] at hk
        cases hk
        simpa [invocations, deleted] using hother v hv
  refine ⟨hwatches, ?_⟩
  intro t ht
  obtain ⟨t1, o, he, hm, hk, _⟩ := hinv.entry b _ ht
  cases he
  exact hwatches t o hm hk

theorem key_isolation_witness :
    (∀ s s1 : State, (Call.delete exA2).run MetaNamespaceKeyFunc s = .ok s1 →
      s1.scaledObjectsContexts "ns/c" = s.scaledObjectsContexts "ns/c" ∧
      (s1.cancelCalls = s.cancelCalls ∨
        ∃ t, s.scaledObjectsContexts "ns/a" = some (.cancelFunc t) ∧
          s1.cancelCalls = s.cancelCalls ++ [t])) ∧
    ∃ c1, (Call.delete exA2).run MetaNamespaceKeyFunc exTwoKeys = .ok c1 ∧
      c1.scaledObjectsContexts "ns/c" = exTwoKeys.scaledObjectsContexts "ns/c" ∧
      (∀ t o, (t, o) ∈ exTwoKeys.watches → MetaNamespaceKeyFunc o = .ok "ns/c" →
        invocations c1 t = invocations exTwoKeys t) ∧
      (∀ t, exTwoKeys.scaledObjectsContexts "ns/c" = some (.cancelFunc t) →
        invocations c1 t = invocations exTwoKeys t) :=
  key_isolation MetaNamespaceKeyFunc exRunning exTwoKeys 1 [.upsert exA1, .upsert exC1]
    (.delete exA2) "ns/a" "ns/c" rfl (fun _ => rfl) rfl rfl runCalls_exTwoKeys rfl
    (by decide)

/-! ## The cancellation tree below the root -/

theorem RunInv.setup (parent : Nat) (c : State) :
    RunInv parent c.scopes c.watches c.scaledObjectsContexts (runSetup parent c) :=
  ⟨rfl, ⟨0, by simp [runSetup, WithCancel]⟩, ⟨[], by simp [runSetup, WithCancel], by simp⟩,
    fun _ _ hv => Or.inl hv⟩

theorem RunInv.keep_upserted {parent : Nat} {base : List (Option Nat)}
    {w0 : List (Nat × ScaledObject)} {m0 : SyncMap} {c : State}
    (h : RunInv parent base w0 m0 c) (o : ScaledObject) (k : String) :
    RunInv parent base w0 m0 (Controller.upserted c o k base.length) := by
  obtain ⟨m, hm⟩ := h.scopes_eq
  obtain ⟨new, hnew, hb⟩ := h.watches_eq
  have hlen : base.length < c.scopes.length := by
    rw [hm]
    simp
  refine ⟨h.ctx_eq, ⟨m + 1, ?_⟩, ⟨new ++ [(c.scopes.length, o)], ?_, ?_⟩, ?_⟩
  · simp [Controller.upserted, hm, List.replicate_succ']
  · simp [Controller.upserted, hnew]
  · intro p hp
    simp only [List.mem_append, List.mem_singleton] at hp
    rcases hp with hp | rfl
    · have := hb p hp
      simp only [Controller.upserted, List.length_append, List.length_singleton]
      omega
    · simp only [Controller.upserted, List.length_append, List.length_singleton]
      omega
  · intro k1 v hv
    by_cases hk : k1 = k
    · right
      simp only [Controller.upserted, SyncMap.Store, hk, if_true] at hv
      refine ⟨c.scopes.length, (Option.some.inj hv).symm, hlen, ?_⟩
      simp [Controller.upserted]
    · simp only [Controller.upserted, SyncMap.Store, hk, if_false] at hv
      rcases h.registry k1 v hv with h1 | ⟨t, h1, h2, h3⟩
      · exact Or.inl h1
      · refine Or.inr ⟨t, h1, h2, ?_⟩
        simp only [Controller.upserted, List.length_append, List.length_singleton]
        omega

theorem RunInv.keep_deleted {parent : Nat} {base : List (Option Nat)}
    {w0 : List (Nat × ScaledObject)} {m0 : SyncMap} {c : State}
    (h : RunInv parent base w0 m0 c) (k : String) (v : Value) :
    RunInv parent base w0 m0 (Controller.deleted c k v) := by
  refine ⟨h.ctx_eq, h.scopes_eq, h.watches_eq, ?_⟩
  intro k1 v1 hv
  by_cases hk : k1 = k
  · simp [Controller.deleted, SyncMap.Delete, hk] at hv
  · simp only [Controller.deleted, SyncMap.Delete, hk, if_false] at hv
    exact h.registry k1 v1 hv

theorem RunInv.upsert_ok (K : ScaledObject → Except String String) {parent : Nat}
    {base : List (Option Nat)} {w0 : List (Nat × ScaledObject)} {m0 : SyncMap}
    {c c1 : State} (h : RunInv parent base w0 m0 c) (obj : Obj)
    (hrun : syncScaledObject K obj c = .ok c1) : RunInv parent base w0 m0 c1 := by
  rcases syncScaledObject_ok_cases K obj c c1 hrun with rfl | ⟨o, k, root, _, _, hc, rfl⟩
  · exact h
  · rw [h.ctx_eq] at hc
    cases hc
    exact h.keep_upserted o k

theorem RunInv.delivered (K : ScaledObject → Except String String) {parent : Nat}
    {base : List (Option Nat)} {w0 : List (Nat × ScaledObject)} {m0 : SyncMap}
    {c c1 : State} (h : RunInv parent base w0 m0 c) (n : Notification)
    (hrun : n.deliver K c = .ok c1) : RunInv parent base w0 m0 c1 := by
  cases n with
  | add obj => exact h.upsert_ok K obj hrun
  | update oldObj newObj =>
    cases newObj with
    | other tag => simp [Notification.deliver, UpdateFunc] at hrun
    | scaledObject new =>
      cases oldObj with
      | other tag => simp [Notification.deliver, UpdateFunc] at hrun
      | scaledObject old =>
        by_cases hv : new.ResourceVersion = old.ResourceVersion
        · simp only [Notification.deliver, UpdateFunc, hv, if_true] at hrun
          exact Except.ok.inj hrun ▸ h
        · simp only [Notification.deliver, UpdateFunc, hv, if_false] at hrun
          exact h.upsert_ok K _ hrun
  | delete obj =>
    rcases syncDeletedScaledObject_ok_cases K obj c c1 hrun with rfl | ⟨o, k, v, _, _, _, rfl⟩
    · exact h
    · exact h.keep_deleted k v

theorem RunInv.informer (K : ScaledObject → Except String String) {parent : Nat}
    {base : List (Option Nat)} {w0 : List (Nat × ScaledObject)} {m0 : SyncMap}
    (notifications : List Notification) {c c1 : State} (h : RunInv parent base w0 m0 c)
    (hrun : informerRun K notifications c = .ok c1) : RunInv parent base w0 m0 c1 := by
  induction notifications generalizing c with
  | nil =>
    simp only [informerRun] at hrun
    exact Except.ok.inj hrun ▸ h
  | cons n rest ih =>
    simp only [informerRun] at hrun
    cases hc : n.deliver K c with
    | error e => simp [hc] at hrun
    | ok c2 =>
      simp only [hc] at hrun
      exact ih (h.delivered K n hc) hrun

/-- Under the invariant, the root is a child of the parent and every younger
scope is a child of the root. -/
theorem RunInv.parents {parent : Nat} {base : List (Option Nat)}
    {w0 : List (Nat × ScaledObject)} {m0 : SyncMap} {c : State}
    (h : RunInv parent base w0 m0 c) :
    c.scopes[base.length]? = some (some parent) ∧
    ∀ t, base.length < t → t < c.scopes.length → c.scopes[t]? = some (some base.length) := by
  obtain ⟨m, hm⟩ := h.scopes_eq
  constructor
  · rw [hm, List.getElem?_append_right (Nat.le_refl _)]
    simp
  · intro t h1 h2
    rw [hm] at h2 ⊢
    simp only [List.length_append, List.length_cons, List.length_replicate] at h2
    rw [List.getElem?_append_right (Nat.le_of_lt h1)]
    obtain ⟨j, hj⟩ : ∃ j, t - base.length = j + 1 := ⟨t - base.length - 1, by omega⟩
    rw [hj, List.getElem?_cons_succ, List.getElem?_replicate]
    have : j < m := by omega
    simp [this]

/-- A scope whose parent's cancel function has been invoked is cancelled. -/
theorem cancelled_of_parent (s : State) (t r : Nat) (ht : s.scopes[t]? = some (some r))
    (hr : r ∈ s.cancelCalls) (hlen : 2 ≤ s.scopes.length) : cancelled s t = true := by
  obtain ⟨n, hn⟩ : ∃ n, s.scopes.length = n + 2 := ⟨s.scopes.length - 2, by omega⟩
  simp [cancelled, hn, cancelledWithin, ht, hr]

/-- A scope whose own cancel function has been invoked is cancelled. -/
theorem cancelled_of_self (s : State) (t : Nat) (ht : t ∈ s.cancelCalls)
    (hlen : 1 ≤ s.scopes.length) : cancelled s t = true := by
  obtain ⟨n, hn⟩ : ∃ n, s.scopes.length = n + 1 := ⟨s.scopes.length - 1, by omega⟩
  simp [cancelled, hn, cancelledWithin, ht]

/-- C14: every per-key scope descends from the root.  When the informer
phase of `Run` returns, `c.ctx` is the root scope that `Run` derived from its
parent, every scope created since is a child of the root, and every watch
task dispatched since was handed such a scope; so once the root's cancel
function is invoked each of these scopes is cancelled, whether or not the
registry still holds its cancel function. -/
theorem scopes_descend_from_root (K : ScaledObject → Except String String)
    (parent : Nat) (notifications : List Notification) (c c1 : State)
    (hrun : informerRun K notifications (runSetup parent c) = .ok c1) :
    c1.ctx = some c.scopes.length ∧
    c1.scopes[c.scopes.length]? = some (some parent) ∧
    (∀ t, c.scopes.length < t → t < c1.scopes.length →
      c1.scopes[t]? = some (some c.scopes.length)) ∧
    ∃ new, c1.watches = c.watches ++ new ∧
      ∀ p ∈ new, c1.scopes[p.1]? = some (some c.scopes.length) ∧
        cancelled (cancelCall c.scopes.length c1) p.1 = true := by
  have h := (RunInv.setup parent c).informer K notifications hrun
  obtain ⟨hroot, hchild⟩ := h.parents
  obtain ⟨new, hnew, hb⟩ := h.watches_eq
  refine ⟨h.ctx_eq, hroot, hchild, new, hnew, ?_⟩
  intro p hp
  obtain ⟨h1, h2⟩ := hb p hp
  have hpar := hchild p.1 h1 h2
  refine ⟨hpar, cancelled_of_parent _ p.1 c.scopes.length hpar (by simp [cancelCall]) ?_⟩
  show 2 ≤ c1.scopes.length
  omega

/-- Delivering `exNotifications` after `Run` has set up the root on
`exFresh` returns in the state `exInformed`. -/
theorem informerRun_exInformed :
    informerRun MetaNamespaceKeyFunc exNotifications (runSetup 0 exFresh) = .ok exInformed :=
  rfl

theorem scopes_descend_from_root_witness :
    exInformed.ctx = some exFresh.scopes.length ∧
    exInformed.scopes[exFresh.scopes.length]? = some (some 0) ∧
    (∀ t, exFresh.scopes.length < t → t < exInformed.scopes.length →
      exInformed.scopes[t]? = some (some exFresh.scopes.length)) ∧
    ∃ new, exInformed.watches = exFresh.watches ++ new ∧
      ∀ p ∈ new, exInformed.scopes[p.1]? = some (some exFresh.scopes.length) ∧
        cancelled (cancelCall exFresh.scopes.length exInformed) p.1 = true :=
  scopes_descend_from_root MetaNamespaceKeyFunc 0 exNotifications exFresh exInformed
    informerRun_exInformed

/-! ## Shutdown -/

theorem deliver_returns (K : ScaledObject → Except String String) (n : Notification)
    (c : State) (root : Nat) (hc : c.ctx = some root) (hn : n.wellTyped) :
    ∃ c1, n.deliver K c = .ok c1 ∧ c1.ctx = some root := by
  have hup : ∀ o, ∃ c1, syncScaledObject K (.scaledObject o) c = .ok c1 ∧
      c1.ctx = some root := by
    intro o
    cases hk : K o with
    | error e => exact ⟨c, by simp [syncScaledObject, hk], hc⟩
    | ok k =>
      obtain ⟨c1, h1, h2, _⟩ := syncScaledObject_dispatch K c o k root hk hc
      exact ⟨c1, h1, h2.trans hc⟩
  cases n with
  | add obj =>
    cases obj with
    | other tag => exact hn.elim
    | scaledObject o => exact hup o
  | update oldObj newObj =>
    cases newObj with
    | other tag => cases oldObj <;> exact hn.elim
    | scaledObject new =>
      cases oldObj with
      | other tag => exact hn.elim
      | scaledObject old =>
        by_cases hv : new.ResourceVersion = old.ResourceVersion
        · exact ⟨c, by simp [Notification.deliver, UpdateFunc, hv], hc⟩
        · obtain ⟨c1, h1, h2⟩ := hup new
          exact ⟨c1, by simpa [Notification.deliver, UpdateFunc, hv] using h1, h2⟩
  | delete obj =>
    cases obj with
    | other tag => exact hn.elim
    | scaledObject o =>
      cases hk : K o with
      | error e =>
        exact ⟨c, by simp [Notification.deliver, DeleteFunc, syncDeletedScaledObject, hk], hc⟩
      | ok k =>
        cases hv : c.scaledObjectsContexts k with
        | none => exact ⟨c, syncDeletedScaledObject_absent K c o k hk hv, hc⟩
        | some v => exact ⟨_, syncDeletedScaledObject_loaded K c o k v hk hv, hc⟩

theorem informerRun_returns (K : ScaledObject → Except String String)
    (notifications : List Notification) (c : State) (root : Nat) (hc : c.ctx = some root)
    (hn : ∀ n ∈ notifications, n.wellTyped) :
    ∃ c1, informerRun K notifications c = .ok c1 := by
  induction notifications generalizing c with
  | nil => exact ⟨c, rfl⟩
  | cons n rest ih =>
    obtain ⟨c1, h1, hc1⟩ := deliver_returns K n c root hc (hn n (List.mem_cons_self _ _))
    obtain ⟨c2, h2⟩ := ih c1 hc1 (fun m hm => hn m (List.mem_cons_of_mem _ hm))
    exact ⟨c2, by simp [informerRun, h1, h2]⟩

/-- C15: the shutdown cascade of `Run`.  Started on an empty registry, `Run`
returns whenever the informer has delivered only `*ScaledObject` payloads;
and whenever `Run` returns, the root's cancel function has been invoked, so
the root scope is cancelled, and every value still in the registry is the
cancel function of a child of the root, whose scope is therefore cancelled. -/
theorem Run_cancels_live_scopes (K : ScaledObject → Except String String)
    (parent : Nat) (notifications : List Notification) (c : State)
    (hreg : ∀ k, c.scaledObjectsContexts k = none) :
    (∀ c1, Run K parent notifications c = .ok c1 →
      c1.ctx = some c.scopes.length ∧
      c.scopes.length ∈ c1.cancelCalls ∧
      cancelled c1 c.scopes.length = true ∧
      ∀ k v, c1.scaledObjectsContexts k = some v →
        ∃ t, v = .cancelFunc t ∧ c1.scopes[t]? = some (some c.scopes.length) ∧
          cancelled c1 t = true) ∧
    ((∀ n ∈ notifications, n.wellTyped) →
      ∃ c1, Run K parent notifications c = .ok c1) := by
  constructor
  · intro c1 hrun
    simp only [Run] at hrun
    cases hi : informerRun K notifications (runSetup parent c) with
    | error e => simp [hi] at hrun
    | ok c2 =>
      simp only [hi] at hrun
      have hc1 := Except.ok.inj hrun
      have h := (RunInv.setup parent c).informer K notifications hi
      obtain ⟨_, hchild⟩ := h.parents
      obtain ⟨m, hm⟩ := h.scopes_eq
      have hlen : c.scopes.length < c2.scopes.length := by
        rw [hm]
        simp
      have hmem : c.scopes.length ∈ c1.cancelCalls := by
        rw [← hc1]
        simp [cancelCall, WithCancel]
      have hsc : c1.scopes = c2.scopes := by
        rw [← hc1]
        rfl
      refine ⟨by rw [← hc1]; exact h.ctx_eq, hmem,
        cancelled_of_self c1 _ hmem (by rw [hsc]; omega), ?_⟩
      intro k v hv
      have hv2 : c2.scaledObjectsContexts k = some v := by
        rw [← hc1] at hv
        exact hv
      rcases h.registry k v hv2 with h0 | ⟨t, rfl, h1, h2⟩
      · rw [hreg k] at h0
        cases h0
      · have hpar : c1.scopes[t]? = some (some c.scopes.length) := by
          rw [hsc]
          exact hchild t h1 h2
        exact ⟨t, rfl, hpar, cancelled_of_parent c1 t _ hpar hmem (by rw [hsc]; omega)⟩
  · intro hn
    obtain ⟨c2, h2⟩ := informerRun_returns K notifications (runSetup parent c)
      c.scopes.length rfl hn
    exact ⟨cancelCall c.scopes.length (cancelCall c.scopes.length c2), by
      simp only [Run, h2]
      rfl⟩

theorem Run_cancels_live_scopes_witness :
    (∀ c1, Run MetaNamespaceKeyFunc 0 exNotifications exFresh = .ok c1 →
      c1.ctx = some exFresh.scopes.length ∧
      exFresh.scopes.length ∈ c1.cancelCalls ∧
      cancelled c1 exFresh.scopes.length = true ∧
      ∀ k v, c1.scaledObjectsContexts k = some v →
        ∃ t, v = .cancelFunc t ∧ c1.scopes[t]? = some (some exFresh.scopes.length) ∧
          cancelled c1 t = true) ∧
    ((∀ n ∈ exNotifications, n.wellTyped) →
      ∃ c1, Run MetaNamespaceKeyFunc 0 exNotifications exFresh = .ok c1) :=
  Run_cancels_live_scopes MetaNamespaceKeyFunc 0 exNotifications exFresh (fun _ => rfl)

/-- The example run, evaluated: `Run` returns with `ns/a` and `ns/c` still
in the registry, on scopes 4 and 3; the root's cancel function has been
invoked twice (line 114 and the `defer`), those of scopes 3 and 4 not at
all, and both scopes are cancelled. -/
theorem Run_example :
    ∃ c1, Run MetaNamespaceKeyFunc 0 exNotifications exFresh = .ok c1 ∧
      c1.scaledObjectsContexts "ns/a" = some (.cancelFunc 4) ∧
      c1.scaledObjectsContexts "ns/c" = some (.cancelFunc 3) ∧
      c1.cancelCalls = [2, 1, 1] ∧
      cancelled c1 3 = true ∧ cancelled c1 4 = true ∧
      cancelled exInformed 3 = false ∧ cancelled exInformed 4 = false := by
  refine ⟨cancelCall 1 (cancelCall 1 exInformed), rfl, ?_, ?_, ?_, ?_, ?_, ?_, ?_⟩ <;>
    simp [cancelCall, exInformed, SyncMap.Store, cancelled, cancelledWithin]

end Controller
